import Mathlib

/-!
# CardKB I2C keyboard driver: the poll tick and its key translation

A shallow embedding of `src/cardkb.c`.  The driver keeps two fields of state
(`last_keycode`, `last_shift`), reads one status byte per tick, looks the byte
up in the static table `cardkb_keymap` and reports key presses and releases to
the input device.  The calls the tick makes on the outside world
(`input_report_key`, `input_sync`, `schedule_delayed_work`) are recorded, in
program order, in a list.
-/

namespace CardKB

/-! ## Constants -/

/-- Poll period in milliseconds (`#define POLL_INTERVAL_MS 20`). -/
abbrev POLL_INTERVAL_MS : Nat := 20

/-!
The `KEY_*` identifiers are the logical keys of the spec.  Their declarations
live in the kernel header `linux/input.h` (`input-event-codes.h`), which is not
part of the repository; each one is given the numeric value it has in that
header.  The proofs use only that the keycodes of the table are nonzero and
differ from `KEY_LEFTSHIFT`.
-/

/-- Modelled from the spec: logical key `KEY_ESC`, declared in `linux/input.h` (not in the
repository); value 1 as in that header. -/
abbrev KEY_ESC : Nat := 1
/-- Modelled from the spec: logical key `KEY_1`, declared in `linux/input.h` (not in the
repository); value 2 as in that header. -/
abbrev KEY_1 : Nat := 2
/-- Modelled from the spec: logical key `KEY_2`, declared in `linux/input.h` (not in the
repository); value 3 as in that header. -/
abbrev KEY_2 : Nat := 3
/-- Modelled from the spec: logical key `KEY_3`, declared in `linux/input.h` (not in the
repository); value 4 as in that header. -/
abbrev KEY_3 : Nat := 4
/-- Modelled from the spec: logical key `KEY_4`, declared in `linux/input.h` (not in the
repository); value 5 as in that header. -/
abbrev KEY_4 : Nat := 5
/-- Modelled from the spec: logical key `KEY_5`, declared in `linux/input.h` (not in the
repository); value 6 as in that header. -/
abbrev KEY_5 : Nat := 6
/-- Modelled from the spec: logical key `KEY_6`, declared in `linux/input.h` (not in the
repository); value 7 as in that header. -/
abbrev KEY_6 : Nat := 7
/-- Modelled from the spec: logical key `KEY_7`, declared in `linux/input.h` (not in the
repository); value 8 as in that header. -/
abbrev KEY_7 : Nat := 8
/-- Modelled from the spec: logical key `KEY_8`, declared in `linux/input.h` (not in the
repository); value 9 as in that header. -/
abbrev KEY_8 : Nat := 9
/-- Modelled from the spec: logical key `KEY_9`, declared in `linux/input.h` (not in the
repository); value 10 as in that header. -/
abbrev KEY_9 : Nat := 10
/-- Modelled from the spec: logical key `KEY_0`, declared in `linux/input.h` (not in the
repository); value 11 as in that header. -/
abbrev KEY_0 : Nat := 11
/-- Modelled from the spec: logical key `KEY_MINUS`, declared in `linux/input.h` (not in the
repository); value 12 as in that header. -/
abbrev KEY_MINUS : Nat := 12
/-- Modelled from the spec: logical key `KEY_EQUAL`, declared in `linux/input.h` (not in the
repository); value 13 as in that header. -/
abbrev KEY_EQUAL : Nat := 13
/-- Modelled from the spec: logical key `KEY_BACKSPACE`, declared in `linux/input.h` (not in the
repository); value 14 as in that header. -/
abbrev KEY_BACKSPACE : Nat := 14
/-- Modelled from the spec: logical key `KEY_TAB`, declared in `linux/input.h` (not in the
repository); value 15 as in that header. -/
abbrev KEY_TAB : Nat := 15
/-- Modelled from the spec: logical key `KEY_Q`, declared in `linux/input.h` (not in the
repository); value 16 as in that header. -/
abbrev KEY_Q : Nat := 16
/-- Modelled from the spec: logical key `KEY_W`, declared in `linux/input.h` (not in the
repository); value 17 as in that header. -/
abbrev KEY_W : Nat := 17
/-- Modelled from the spec: logical key `KEY_E`, declared in `linux/input.h` (not in the
repository); value 18 as in that header. -/
abbrev KEY_E : Nat := 18
/-- Modelled from the spec: logical key `KEY_R`, declared in `linux/input.h` (not in the
repository); value 19 as in that header. -/
abbrev KEY_R : Nat := 19
/-- Modelled from the spec: logical key `KEY_T`, declared in `linux/input.h` (not in the
repository); value 20 as in that header. -/
abbrev KEY_T : Nat := 20
/-- Modelled from the spec: logical key `KEY_Y`, declared in `linux/input.h` (not in the
repository); value 21 as in that header. -/
abbrev KEY_Y : Nat := 21
/-- Modelled from the spec: logical key `KEY_U`, declared in `linux/input.h` (not in the
repository); value 22 as in that header. -/
abbrev KEY_U : Nat := 22
/-- Modelled from the spec: logical key `KEY_I`, declared in `linux/input.h` (not in the
repository); value 23 as in that header. -/
abbrev KEY_I : Nat := 23
/-- Modelled from the spec: logical key `KEY_O`, declared in `linux/input.h` (not in the
repository); value 24 as in that header. -/
abbrev KEY_O : Nat := 24
/-- Modelled from the spec: logical key `KEY_P`, declared in `linux/input.h` (not in the
repository); value 25 as in that header. -/
abbrev KEY_P : Nat := 25
/-- Modelled from the spec: logical key `KEY_LEFTBRACE`, declared in `linux/input.h` (not in the
repository); value 26 as in that header. -/
abbrev KEY_LEFTBRACE : Nat := 26
/-- Modelled from the spec: logical key `KEY_RIGHTBRACE`, declared in `linux/input.h` (not in the
repository); value 27 as in that header. -/
abbrev KEY_RIGHTBRACE : Nat := 27
/-- Modelled from the spec: logical key `KEY_ENTER`, declared in `linux/input.h` (not in the
repository); value 28 as in that header. -/
abbrev KEY_ENTER : Nat := 28
/-- Modelled from the spec: logical key `KEY_A`, declared in `linux/input.h` (not in the
repository); value 30 as in that header. -/
abbrev KEY_A : Nat := 30
/-- Modelled from the spec: logical key `KEY_S`, declared in `linux/input.h` (not in the
repository); value 31 as in that header. -/
abbrev KEY_S : Nat := 31
/-- Modelled from the spec: logical key `KEY_D`, declared in `linux/input.h` (not in the
repository); value 32 as in that header. -/
abbrev KEY_D : Nat := 32
/-- Modelled from the spec: logical key `KEY_F`, declared in `linux/input.h` (not in the
repository); value 33 as in that header. -/
abbrev KEY_F : Nat := 33
/-- Modelled from the spec: logical key `KEY_G`, declared in `linux/input.h` (not in the
repository); value 34 as in that header. -/
abbrev KEY_G : Nat := 34
/-- Modelled from the spec: logical key `KEY_H`, declared in `linux/input.h` (not in the
repository); value 35 as in that header. -/
abbrev KEY_H : Nat := 35
/-- Modelled from the spec: logical key `KEY_J`, declared in `linux/input.h` (not in the
repository); value 36 as in that header. -/
abbrev KEY_J : Nat := 36
/-- Modelled from the spec: logical key `KEY_K`, declared in `linux/input.h` (not in the
repository); value 37 as in that header. -/
abbrev KEY_K : Nat := 37
/-- Modelled from the spec: logical key `KEY_L`, declared in `linux/input.h` (not in the
repository); value 38 as in that header. -/
abbrev KEY_L : Nat := 38
/-- Modelled from the spec: logical key `KEY_SEMICOLON`, declared in `linux/input.h` (not in the
repository); value 39 as in that header. -/
abbrev KEY_SEMICOLON : Nat := 39
/-- Modelled from the spec: logical key `KEY_APOSTROPHE`, declared in `linux/input.h` (not in the
repository); value 40 as in that header. -/
abbrev KEY_APOSTROPHE : Nat := 40
/-- Modelled from the spec: logical key `KEY_GRAVE`, declared in `linux/input.h` (not in the
repository); value 41 as in that header. -/
abbrev KEY_GRAVE : Nat := 41
/-- Modelled from the spec: logical key `KEY_LEFTSHIFT`, declared in `linux/input.h` (not in the
repository); value 42 as in that header. -/
abbrev KEY_LEFTSHIFT : Nat := 42
/-- Modelled from the spec: logical key `KEY_BACKSLASH`, declared in `linux/input.h` (not in the
repository); value 43 as in that header. -/
abbrev KEY_BACKSLASH : Nat := 43
/-- Modelled from the spec: logical key `KEY_Z`, declared in `linux/input.h` (not in the
repository); value 44 as in that header. -/
abbrev KEY_Z : Nat := 44
/-- Modelled from the spec: logical key `KEY_X`, declared in `linux/input.h` (not in the
repository); value 45 as in that header. -/
abbrev KEY_X : Nat := 45
/-- Modelled from the spec: logical key `KEY_C`, declared in `linux/input.h` (not in the
repository); value 46 as in that header. -/
abbrev KEY_C : Nat := 46
/-- Modelled from the spec: logical key `KEY_V`, declared in `linux/input.h` (not in the
repository); value 47 as in that header. -/
abbrev KEY_V : Nat := 47
/-- Modelled from the spec: logical key `KEY_B`, declared in `linux/input.h` (not in the
repository); value 48 as in that header. -/
abbrev KEY_B : Nat := 48
/-- Modelled from the spec: logical key `KEY_N`, declared in `linux/input.h` (not in the
repository); value 49 as in that header. -/
abbrev KEY_N : Nat := 49
/-- Modelled from the spec: logical key `KEY_M`, declared in `linux/input.h` (not in the
repository); value 50 as in that header. -/
abbrev KEY_M : Nat := 50
/-- Modelled from the spec: logical key `KEY_COMMA`, declared in `linux/input.h` (not in the
repository); value 51 as in that header. -/
abbrev KEY_COMMA : Nat := 51
/-- Modelled from the spec: logical key `KEY_DOT`, declared in `linux/input.h` (not in the
repository); value 52 as in that header. -/
abbrev KEY_DOT : Nat := 52
/-- Modelled from the spec: logical key `KEY_SLASH`, declared in `linux/input.h` (not in the
repository); value 53 as in that header. -/
abbrev KEY_SLASH : Nat := 53
/-- Modelled from the spec: logical key `KEY_SPACE`, declared in `linux/input.h` (not in the
repository); value 57 as in that header. -/
abbrev KEY_SPACE : Nat := 57
/-- Modelled from the spec: logical key `KEY_UP`, declared in `linux/input.h` (not in the
repository); value 103 as in that header. -/
abbrev KEY_UP : Nat := 103
/-- Modelled from the spec: logical key `KEY_LEFT`, declared in `linux/input.h` (not in the
repository); value 105 as in that header. -/
abbrev KEY_LEFT : Nat := 105
/-- Modelled from the spec: logical key `KEY_RIGHT`, declared in `linux/input.h` (not in the
repository); value 106 as in that header. -/
abbrev KEY_RIGHT : Nat := 106
/-- Modelled from the spec: logical key `KEY_DOWN`, declared in `linux/input.h` (not in the
repository); value 108 as in that header. -/
abbrev KEY_DOWN : Nat := 108

/-! ## Data model -/

/-- One row of the anonymous struct array `cardkb_keymap`:
`raw_code` is a `u8`, `keycode` a `u16`, `shift` a `bool`. -/
structure KeymapEntry where
  raw_code : Nat
  keycode : Nat
  shift : Bool
deriving DecidableEq, Repr

/-- The static table `cardkb_keymap`, rows in source order. -/
def cardkb_keymap : List KeymapEntry := [
  (KeymapEntry.mk 0x1B KEY_ESC false),
  (KeymapEntry.mk 0x31 KEY_1 false),
  (KeymapEntry.mk 0x32 KEY_2 false),
  (KeymapEntry.mk 0x33 KEY_3 false),
  (KeymapEntry.mk 0x34 KEY_4 false),
  (KeymapEntry.mk 0x35 KEY_5 false),
  (KeymapEntry.mk 0x36 KEY_6 false),
  (KeymapEntry.mk 0x37 KEY_7 false),
  (KeymapEntry.mk 0x38 KEY_8 false),
  (KeymapEntry.mk 0x39 KEY_9 false),
  (KeymapEntry.mk 0x30 KEY_0 false),
  (KeymapEntry.mk 0x08 KEY_BACKSPACE false),
  (KeymapEntry.mk 0x09 KEY_TAB false),
  (KeymapEntry.mk 0x61 KEY_A false),
  (KeymapEntry.mk 0x62 KEY_B false),
  (KeymapEntry.mk 0x63 KEY_C false),
  (KeymapEntry.mk 0x64 KEY_D false),
  (KeymapEntry.mk 0x65 KEY_E false),
  (KeymapEntry.mk 0x66 KEY_F false),
  (KeymapEntry.mk 0x67 KEY_G false),
  (KeymapEntry.mk 0x68 KEY_H false),
  (KeymapEntry.mk 0x69 KEY_I false),
  (KeymapEntry.mk 0x6A KEY_J false),
  (KeymapEntry.mk 0x6B KEY_K false),
  (KeymapEntry.mk 0x6C KEY_L false),
  (KeymapEntry.mk 0x6D KEY_M false),
  (KeymapEntry.mk 0x6E KEY_N false),
  (KeymapEntry.mk 0x6F KEY_O false),
  (KeymapEntry.mk 0x70 KEY_P false),
  (KeymapEntry.mk 0x71 KEY_Q false),
  (KeymapEntry.mk 0x72 KEY_R false),
  (KeymapEntry.mk 0x73 KEY_S false),
  (KeymapEntry.mk 0x74 KEY_T false),
  (KeymapEntry.mk 0x75 KEY_U false),
  (KeymapEntry.mk 0x76 KEY_V false),
  (KeymapEntry.mk 0x77 KEY_W false),
  (KeymapEntry.mk 0x78 KEY_X false),
  (KeymapEntry.mk 0x79 KEY_Y false),
  (KeymapEntry.mk 0x7A KEY_Z false),
  (KeymapEntry.mk 0xB5 KEY_UP false),
  (KeymapEntry.mk 0xB6 KEY_DOWN false),
  (KeymapEntry.mk 0xB4 KEY_LEFT false),
  (KeymapEntry.mk 0xB7 KEY_RIGHT false),
  (KeymapEntry.mk 0x0D KEY_ENTER false),
  (KeymapEntry.mk 0x20 KEY_SPACE false),
  (KeymapEntry.mk 0x41 KEY_A true),
  (KeymapEntry.mk 0x42 KEY_B true),
  (KeymapEntry.mk 0x43 KEY_C true),
  (KeymapEntry.mk 0x44 KEY_D true),
  (KeymapEntry.mk 0x45 KEY_E true),
  (KeymapEntry.mk 0x46 KEY_F true),
  (KeymapEntry.mk 0x47 KEY_G true),
  (KeymapEntry.mk 0x48 KEY_H true),
  (KeymapEntry.mk 0x49 KEY_I true),
  (KeymapEntry.mk 0x4A KEY_J true),
  (KeymapEntry.mk 0x4B KEY_K true),
  (KeymapEntry.mk 0x4C KEY_L true),
  (KeymapEntry.mk 0x4D KEY_M true),
  (KeymapEntry.mk 0x4E KEY_N true),
  (KeymapEntry.mk 0x4F KEY_O true),
  (KeymapEntry.mk 0x50 KEY_P true),
  (KeymapEntry.mk 0x51 KEY_Q true),
  (KeymapEntry.mk 0x52 KEY_R true),
  (KeymapEntry.mk 0x53 KEY_S true),
  (KeymapEntry.mk 0x54 KEY_T true),
  (KeymapEntry.mk 0x55 KEY_U true),
  (KeymapEntry.mk 0x56 KEY_V true),
  (KeymapEntry.mk 0x57 KEY_W true),
  (KeymapEntry.mk 0x58 KEY_X true),
  (KeymapEntry.mk 0x59 KEY_Y true),
  (KeymapEntry.mk 0x5A KEY_Z true),
  (KeymapEntry.mk 0x21 KEY_1 true),
  (KeymapEntry.mk 0x40 KEY_2 true),
  (KeymapEntry.mk 0x23 KEY_3 true),
  (KeymapEntry.mk 0x24 KEY_4 true),
  (KeymapEntry.mk 0x25 KEY_5 true),
  (KeymapEntry.mk 0x5E KEY_6 true),
  (KeymapEntry.mk 0x26 KEY_7 true),
  (KeymapEntry.mk 0x2A KEY_8 true),
  (KeymapEntry.mk 0x28 KEY_9 true),
  (KeymapEntry.mk 0x29 KEY_0 true),
  (KeymapEntry.mk 0x7B KEY_LEFTBRACE true),
  (KeymapEntry.mk 0x7D KEY_RIGHTBRACE true),
  (KeymapEntry.mk 0x5B KEY_LEFTBRACE false),
  (KeymapEntry.mk 0x5D KEY_RIGHTBRACE false),
  (KeymapEntry.mk 0x2F KEY_SLASH false),
  (KeymapEntry.mk 0x5C KEY_BACKSLASH false),
  (KeymapEntry.mk 0x7C KEY_BACKSLASH true),
  (KeymapEntry.mk 0x7E KEY_GRAVE true),
  (KeymapEntry.mk 0x27 KEY_APOSTROPHE false),
  (KeymapEntry.mk 0x22 KEY_APOSTROPHE true),
  (KeymapEntry.mk 0x3B KEY_SEMICOLON false),
  (KeymapEntry.mk 0x3A KEY_SEMICOLON true),
  (KeymapEntry.mk 0x60 KEY_GRAVE false),
  (KeymapEntry.mk 0x2B KEY_EQUAL true),
  (KeymapEntry.mk 0x2D KEY_MINUS true),
  (KeymapEntry.mk 0x5F KEY_MINUS false),
  (KeymapEntry.mk 0x3D KEY_EQUAL false),
  (KeymapEntry.mk 0x3F KEY_SLASH true),
  (KeymapEntry.mk 0x3C KEY_COMMA true),
  (KeymapEntry.mk 0x3E KEY_DOT true),
  (KeymapEntry.mk 0x2C KEY_COMMA false),
  (KeymapEntry.mk 0x2E KEY_DOT false)
]

/-- The two mutable fields of `struct cardkb`.  The remaining fields (`client`,
`input`, `work`) are handles that the poll tick never changes. -/
structure Cardkb where
  last_keycode : Nat
  last_shift : Bool
deriving DecidableEq, Repr

/-- A call made by the driver on the kernel, as it appears in the source. -/
inductive Call where
  | input_report_key (code : Nat) (value : Nat)
  | input_sync
  | schedule_delayed_work (ms : Nat)
deriving DecidableEq, Repr

/-- State written by `cardkb_probe` (`last_keycode = 0`, `last_shift = false`). -/
def cardkb_probe_state : Cardkb := ⟨0, false⟩

/-! ## The poll tick -/

/-- The two release calls of the source (lines 175-177 and 190-192):
`KEY_LEFTSHIFT` up when `last_shift`, then `last_keycode` up. -/
def release_calls (kb : Cardkb) : List Call :=
  (if kb.last_shift then [Call.input_report_key KEY_LEFTSHIFT 0] else []) ++
    [Call.input_report_key kb.last_keycode 0]

/-- Body of the `for` loop of `cardkb_poll` at a row whose `raw_code` equals the
byte read (lines 186-205): optional release of the previous key, optional
shift press, key press, `input_sync`, state update, `break`. -/
def cardkb_poll_hit (kb : Cardkb) (e : KeymapEntry) : Cardkb × List Call :=
  (⟨e.keycode, e.shift⟩,
    (if kb.last_keycode ≠ 0 ∧ (kb.last_keycode ≠ e.keycode ∨ kb.last_shift ≠ e.shift)
      then release_calls kb else []) ++
    (if e.shift then [Call.input_report_key KEY_LEFTSHIFT 1] else []) ++
    [Call.input_report_key e.keycode 1, Call.input_sync])

/-- The `for (i = 0; i < keymap_size; i++)` loop of `cardkb_poll` over the rows
still to be visited: the first row whose `raw_code` equals `val` is handled and
the loop breaks; with no such row nothing happens. -/
def cardkb_poll_scan (kb : Cardkb) (val : Int) : List KeymapEntry → Cardkb × List Call
  | [] => (kb, [])
  | e :: rest =>
    if (e.raw_code : Int) = val then cardkb_poll_hit kb e
    else cardkb_poll_scan kb val rest

/-- The `if (val == 0) ... else ...` statement of `cardkb_poll` (lines 172-208). -/
def cardkb_poll_body (kb : Cardkb) (val : Int) : Cardkb × List Call :=
  if val = 0 then
    if kb.last_keycode ≠ 0 then
      (⟨0, false⟩, release_calls kb ++ [Call.input_sync])
    else (kb, [])
  else cardkb_poll_scan kb val cardkb_keymap

/-- One run of `cardkb_poll`.  `val` is the result of
`i2c_smbus_read_byte_data`: negative on a transport error, else the byte read.
Returns the new state and the calls made, in order. -/
def cardkb_poll (kb : Cardkb) (val : Int) : Cardkb × List Call :=
  if val < 0 then (kb, [])
  else
    ((cardkb_poll_body kb val).1,
      (cardkb_poll_body kb val).2 ++ [Call.schedule_delayed_work POLL_INTERVAL_MS])

/-- The delayed work over time: the tick armed by `cardkb_probe` runs on the
first read result, and each later tick runs only if the previous one re-armed
the work with `schedule_delayed_work`. -/
def cardkb_run (kb : Cardkb) : List Int → Cardkb × List Call
  | [] => (kb, [])
  | v :: vs =>
    if Call.schedule_delayed_work POLL_INTERVAL_MS ∈ (cardkb_poll kb v).2 then
      ((cardkb_run (cardkb_poll kb v).1 vs).1,
        (cardkb_poll kb v).2 ++ (cardkb_run (cardkb_poll kb v).1 vs).2)
    else cardkb_poll kb v

/-! ## Vocabulary of the specification, in terms of the calls -/

/-- Shift press: `input_report_key(input, KEY_LEFTSHIFT, 1)`. -/
def ShiftDown : Call := Call.input_report_key KEY_LEFTSHIFT 1

/-- Shift release: `input_report_key(input, KEY_LEFTSHIFT, 0)`. -/
def ShiftUp : Call := Call.input_report_key KEY_LEFTSHIFT 0

/-- Key press: `input_report_key(input, k, 1)`. -/
def KeyDown (k : Nat) : Call := Call.input_report_key k 1

/-- Key release: `input_report_key(input, k, 0)`. -/
def KeyUp (k : Nat) : Call := Call.input_report_key k 0

/-- Whether a call is a key report. -/
def Call.isReport : Call → Bool
  | Call.input_report_key _ _ => true
  | _ => false

/-- The key events of a call list: its `input_report_key` calls, in order. -/
def events (cs : List Call) : List Call := cs.filter Call.isReport

/-- The press sequence of the spec for `(k, s)`: `ShiftDown` if `s`, then `KeyDown k`. -/
def pressSeq (k : Nat) (s : Bool) : List Call :=
  (if s then [ShiftDown] else []) ++ [KeyDown k]

/-- The release sequence of the spec for `(k, s)`: `ShiftUp` if `s`, then `KeyUp k`. -/
def releaseSeq (k : Nat) (s : Bool) : List Call :=
  (if s then [ShiftUp] else []) ++ [KeyUp k]



/-- The state `Idle` of the spec: no key held. -/
def Idle : Cardkb := ⟨0, false⟩

/-- The state `Held(k, s)` of the spec: key `k` held with shift flag `s`. -/
def Held (k : Nat) (s : Bool) : Cardkb := ⟨k, s⟩

/-- A press of an ordinary key: a report of value 1 for a code other than shift. -/
def Call.isKeyDown : Call → Bool
  | Call.input_report_key c v => decide (c ≠ KEY_LEFTSHIFT ∧ v = 1)
  | _ => false

/-- A release of an ordinary key: a report of value 0 for a code other than shift. -/
def Call.isKeyUp : Call → Bool
  | Call.input_report_key c v => decide (c ≠ KEY_LEFTSHIFT ∧ v = 0)
  | _ => false

/-- A press of the shift key. -/
def Call.isShiftDown : Call → Bool
  | Call.input_report_key c v => decide (c = KEY_LEFTSHIFT ∧ v = 1)
  | _ => false

/-- A release of the shift key. -/
def Call.isShiftUp : Call → Bool
  | Call.input_report_key c v => decide (c = KEY_LEFTSHIFT ∧ v = 0)
  | _ => false

/-- A tick is a steady repeat when a key is held and the byte read has a row in
the table whose `(keycode, shift)` is the pair already held (the case in which
the guard of lines 187-189 is false although `last_keycode` is nonzero). -/
def isSteady (kb : Cardkb) (val : Int) : Bool :=
  decide (kb.last_keycode ≠ 0 ∧ ∃ e ∈ cardkb_keymap,
    (e.raw_code : Int) = val ∧ e.keycode = kb.last_keycode ∧ e.shift = kb.last_shift)

/-- Number of steady-repeat ticks in the run of the delayed work from `kb`. -/
def steadyTicks (kb : Cardkb) : List Int → Nat
  | [] => 0
  | v :: vs =>
    if v < 0 then 0
    else (if isSteady kb v then 1 else 0) + steadyTicks (cardkb_poll kb v).1 vs

/-- Number of steady-repeat ticks of a pair held with shift. -/
def steadyShiftTicks (kb : Cardkb) : List Int → Nat
  | [] => 0
  | v :: vs =>
    if v < 0 then 0
    else (if isSteady kb v && kb.last_shift then 1 else 0) +
      steadyShiftTicks (cardkb_poll kb v).1 vs

/-- Whether the state holds a key (0 or 1). -/
def heldCount (kb : Cardkb) : Nat := if kb.last_keycode ≠ 0 then 1 else 0

/-- Whether the state holds a key together with shift (0 or 1). -/
def heldShiftCount (kb : Cardkb) : Nat :=
  if kb.last_keycode ≠ 0 ∧ kb.last_shift = true then 1 else 0


/-- The value a call reports for key `k`, if it is a report for `k`. -/
def Call.valueFor (k : Nat) : Call → Option Nat
  | Call.input_report_key c v => if k = c then some v else none
  | _ => none

/-- The values reported for key `k` by a call list, in order. -/
def reportsOf (k : Nat) (cs : List Call) : List Nat := cs.filterMap (Call.valueFor k)

/-- No key receives two reports of value `v` without a report of another value
for the same key in between (`v = 1`: no double press, `v = 0`: no double
release). -/
def NoRepeatOf (v : Nat) (cs : List Call) : Prop :=
  ∀ k, List.Chain' (fun a b => ¬ (a = v ∧ b = v)) (reportsOf k cs)

/-- Whether the held state says key `k` is down: the held key, and the shift
key when the held pair carries shift. -/
def isDown (kb : Cardkb) (k : Nat) : Bool :=
  decide (kb.last_keycode ≠ 0 ∧
    (k = kb.last_keycode ∨ (kb.last_shift = true ∧ k = KEY_LEFTSHIFT)))


/-- The consumer of the reports, as the set of keys currently down (shift
included): a report of value 0 removes the key, any other report inserts it;
`input_sync` and the rescheduling leave the set alone. -/
def sink_step (D : Finset Nat) : Call → Finset Nat
  | Call.input_report_key c v => if v = 0 then D.erase c else insert c D
  | _ => D

/-- The set of keys down after a list of calls, starting from `D`. -/
def sink_run (D : Finset Nat) (cs : List Call) : Finset Nat := cs.foldl sink_step D

/-- The consumer restricted to ordinary keys: reports for `KEY_LEFTSHIFT` are
ignored, a press inserts the key, a release removes it. -/
def keys_step (D : Finset Nat) : Call → Finset Nat
  | Call.input_report_key c v =>
    if c = KEY_LEFTSHIFT then D else if v = 0 then D.erase c else insert c D
  | _ => D

/-- The set of non-shift keys down after a list of calls, starting from `D`. -/
def keys_run (D : Finset Nat) (cs : List Call) : Finset Nat := cs.foldl keys_step D

/-- The sets of keys down before the first call and after each call. -/
def sink_trace (D : Finset Nat) : List Call → List (Finset Nat)
  | [] => [D]
  | c :: cs => D :: sink_trace (sink_step D c) cs

/-- What the held state prescribes as down: nothing when no key is held, `{k}`
for `Held(k, false)`, `{k, KEY_LEFTSHIFT}` for `Held(k, true)`. -/
def downSet (kb : Cardkb) : Finset Nat :=
  if kb.last_keycode = 0 then ∅
  else if kb.last_shift then {kb.last_keycode, KEY_LEFTSHIFT}
  else {kb.last_keycode}

/-- The keys the held state records: none when `last_keycode = 0`, else the one
in `last_keycode`. -/
def heldKeys (kb : Cardkb) : Finset Nat :=
  if kb.last_keycode = 0 then ∅ else {kb.last_keycode}

/-- At most one element of the set is an ordinary (non-shift) key. -/
def AtMostOneKey (S : Finset Nat) : Prop :=
  ∀ x ∈ S, ∀ y ∈ S, x ≠ KEY_LEFTSHIFT → y ≠ KEY_LEFTSHIFT → x = y


/-- The table search of the `for` loop of `cardkb_poll` taken on its own (lines
184-185): the `(keycode, shift)` of the first row whose `raw_code` equals `val`,
or `none` when the loop runs to the end. -/
def scan_lookup (val : Int) : List KeymapEntry → Option (Nat × Bool)
  | [] => none
  | e :: rest =>
    if (e.raw_code : Int) = val then some (e.keycode, e.shift) else scan_lookup val rest

/-- Filling of the dense array of the spec (section 4.1): each row of the table
is written into the slot indexed by its raw byte. -/
def dense_fill (arr : List (Option (Nat × Bool))) :
    List KeymapEntry → List (Option (Nat × Bool))
  | [] => arr
  | e :: rest => dense_fill (arr.set e.raw_code (some (e.keycode, e.shift))) rest

/-- The dense 256-entry lookup array of the spec, built from `cardkb_keymap`. -/
def dense_keymap : List (Option (Nat × Bool)) :=
  dense_fill (List.replicate 256 none) cardkb_keymap

/-- Lookup of the spec in the dense array: the slot at index `r`. -/
def dense_lookup (r : Nat) : Option (Nat × Bool) := dense_keymap.getD r none

/-- The loop of `cardkb_probe` that declares the supported keys (lines 239-243):
for each row, set the bit of its keycode in `input->keybit` and, when the row
needs shift, the bit of `KEY_LEFTSHIFT`.  The bitmap is modelled as the set of
the bits that are set. -/
def cardkb_probe_keybit_loop (keybit : Finset Nat) : List KeymapEntry → Finset Nat
  | [] => keybit
  | e :: rest =>
    cardkb_probe_keybit_loop
      (if e.shift then insert KEY_LEFTSHIFT (insert e.keycode keybit)
        else insert e.keycode keybit) rest

/-- The key set declared by `cardkb_probe`: the loop run over `cardkb_keymap` on
the zeroed bitmap of the freshly allocated input device. -/
@[irreducible]
def cardkb_probe_keybit : Finset Nat := cardkb_probe_keybit_loop ∅ cardkb_keymap

/-- The held-state encoding: either no key is held and the shift flag is clear,
or the fields hold the `(keycode, shift)` of some row of the table. -/
def Encoded (kb : Cardkb) : Prop :=
  (kb.last_keycode = 0 ∧ kb.last_shift = false) ∨
  ∃ e ∈ cardkb_keymap, kb.last_keycode = e.keycode ∧ kb.last_shift = e.shift

/-- A read result that decides the next state: `0x00` or a byte with a row in
the table. -/
def isEffective (val : Int) : Bool :=
  decide (val = 0) || (scan_lookup val cardkb_keymap).isSome

/-- The state a deciding read result leads to: `Idle` for `0x00`, `Held` of
the pair found by the table search otherwise. -/
def stateAfter (val : Int) : Cardkb :=
  if val = 0 then Idle
  else match scan_lookup val cardkb_keymap with
    | some p => Held p.1 p.2
    | none => Idle

/-- The last read result of a sequence that is `0x00` or recognized, if any. -/
def lastEffective : List Int → Option Int
  | [] => none
  | v :: vs =>
    match lastEffective vs with
    | some w => some w
    | none => if isEffective v then some v else none


/-- The calls of the run of the delayed work, each paired with whether the tick
that made it is a steady repeat.  Same recursion as `cardkb_run`. -/
def cardkb_run_tagged (kb : Cardkb) : List Int → List (Call × Bool)
  | [] => []
  | v :: vs =>
    if Call.schedule_delayed_work POLL_INTERVAL_MS ∈ (cardkb_poll kb v).2 then
      (cardkb_poll kb v).2.map (fun c => (c, isSteady kb v)) ++
        cardkb_run_tagged (cardkb_poll kb v).1 vs
    else (cardkb_poll kb v).2.map (fun c => (c, isSteady kb v))

/-- The values reported for key `k` by a tagged call list, in order, each with
the tag of its call. -/
def taggedReportsOf (k : Nat) (cs : List (Call × Bool)) : List (Nat × Bool) :=
  cs.filterMap (fun p => (p.1.valueFor k).map (fun v => (v, p.2)))

/-- Whenever a key receives a press directly after a press (no other report for
that key in between), the later press is made by a steady-repeat tick. -/
def RepeatedPressIsSteady (cs : List (Call × Bool)) : Prop :=
  ∀ k, List.Chain' (fun a b => a.1 = 1 → b.1 = 1 → b.2 = true) (taggedReportsOf k cs)


/-! ## Facts about the table -/

theorem keymap_raw_nodup : (cardkb_keymap.map KeymapEntry.raw_code).Nodup := by decide

theorem keymap_entry_facts :
    ∀ e ∈ cardkb_keymap, e.raw_code ≠ 0 ∧ e.keycode ≠ 0 ∧ e.keycode ≠ KEY_LEFTSHIFT := by
  decide

/-! ## The scan loop -/

theorem scan_miss (kb : Cardkb) (val : Int) (t : List KeymapEntry)
    (h : ∀ e ∈ t, (e.raw_code : Int) ≠ val) : cardkb_poll_scan kb val t = (kb, []) := by
  induction t with
  | nil => rfl
  | cons a t ih =>
    have ha := h a (List.mem_cons_self a t)
    simp only [cardkb_poll_scan, if_neg ha]
    exact ih (fun e he => h e (List.mem_cons_of_mem a he))

theorem scan_hit (kb : Cardkb) (t : List KeymapEntry)
    (hnd : (t.map KeymapEntry.raw_code).Nodup) (e : KeymapEntry) (he : e ∈ t) :
    cardkb_poll_scan kb (e.raw_code : Int) t = cardkb_poll_hit kb e := by
  induction t with
  | nil => cases he
  | cons a t ih =>
    rw [List.map_cons, List.nodup_cons] at hnd
    rcases List.mem_cons.1 he with rfl | h
    · simp [cardkb_poll_scan]
    · have hne : a.raw_code ≠ e.raw_code := fun hc =>
        hnd.1 (hc ▸ List.mem_map_of_mem KeymapEntry.raw_code h)
      have hne2 : ¬ ((a.raw_code : Int) = (e.raw_code : Int)) := fun hc => hne (by exact_mod_cast hc)
      simp only [cardkb_poll_scan, if_neg hne2]
      exact ih hnd.2 h

theorem scan_cases (kb : Cardkb) (val : Int) (t : List KeymapEntry) :
    (cardkb_poll_scan kb val t = (kb, []) ∧ ∀ e ∈ t, (e.raw_code : Int) ≠ val) ∨
    ∃ e ∈ t, (e.raw_code : Int) = val ∧ cardkb_poll_scan kb val t = cardkb_poll_hit kb e := by
  induction t with
  | nil => left; exact ⟨rfl, fun e he => by cases he⟩
  | cons a t ih =>
    by_cases ha : (a.raw_code : Int) = val
    · right
      exact ⟨a, List.mem_cons_self a t, ha, by simp only [cardkb_poll_scan, if_pos ha]⟩
    · rcases ih with ⟨h1, h2⟩ | ⟨e, he, h1, h2⟩
      · left
        refine ⟨by simp only [cardkb_poll_scan, if_neg ha]; exact h1, ?_⟩
        intro e he
        rcases List.mem_cons.1 he with rfl | h
        · exact ha
        · exact h2 e h
      · right
        exact ⟨e, List.mem_cons_of_mem a he, h1, by simp only [cardkb_poll_scan, if_neg ha]; exact h2⟩

/-! ## One tick, case by case -/

theorem poll_error (kb : Cardkb) (val : Int) (h : val < 0) : cardkb_poll kb val = (kb, []) := by
  simp only [cardkb_poll, if_pos h]

theorem poll_ok (kb : Cardkb) (val : Int) (h : 0 ≤ val) :
    cardkb_poll kb val = ((cardkb_poll_body kb val).1,
      (cardkb_poll_body kb val).2 ++ [Call.schedule_delayed_work POLL_INTERVAL_MS]) := by
  simp only [cardkb_poll, if_neg (not_lt.2 h)]

theorem body_entry (kb : Cardkb) (e : KeymapEntry) (he : e ∈ cardkb_keymap) :
    cardkb_poll_body kb (e.raw_code : Int) = cardkb_poll_hit kb e := by
  have h0 : ¬ ((e.raw_code : Int) = 0) := fun hc =>
    (keymap_entry_facts e he).1 (by exact_mod_cast hc)
  simp only [cardkb_poll_body, if_neg h0]
  exact scan_hit kb cardkb_keymap keymap_raw_nodup e he

theorem poll_entry (kb : Cardkb) (e : KeymapEntry) (he : e ∈ cardkb_keymap) :
    cardkb_poll kb (e.raw_code : Int) = ((cardkb_poll_hit kb e).1,
      (cardkb_poll_hit kb e).2 ++ [Call.schedule_delayed_work POLL_INTERVAL_MS]) := by
  rw [poll_ok kb _ (Int.ofNat_nonneg _), body_entry kb e he]

theorem events_append (a b : List Call) : events (a ++ b) = events a ++ events b := by
  simp [events]

theorem events_release (kb : Cardkb) :
    events (release_calls kb) = releaseSeq kb.last_keycode kb.last_shift := by
  cases h : kb.last_shift <;> simp [release_calls, releaseSeq, events, Call.isReport, h, ShiftUp, KeyUp]

theorem events_hit (kb : Cardkb) (e : KeymapEntry) :
    events ((cardkb_poll_hit kb e).2 ++ [Call.schedule_delayed_work POLL_INTERVAL_MS]) =
      (if kb.last_keycode ≠ 0 ∧ (kb.last_keycode ≠ e.keycode ∨ kb.last_shift ≠ e.shift)
        then releaseSeq kb.last_keycode kb.last_shift else []) ++ pressSeq e.keycode e.shift := by
  simp only [cardkb_poll_hit, events_append, List.append_assoc]
  congr 1
  · split
    · exact events_release kb
    · rfl
  · cases e.shift <;> rfl

theorem events_entry (kb : Cardkb) (e : KeymapEntry) (he : e ∈ cardkb_keymap) :
    events (cardkb_poll kb (e.raw_code : Int)).2 =
      (if kb.last_keycode ≠ 0 ∧ (kb.last_keycode ≠ e.keycode ∨ kb.last_shift ≠ e.shift)
        then releaseSeq kb.last_keycode kb.last_shift else []) ++ pressSeq e.keycode e.shift := by
  rw [poll_entry kb e he]
  exact events_hit kb e

theorem state_entry (kb : Cardkb) (e : KeymapEntry) (he : e ∈ cardkb_keymap) :
    (cardkb_poll kb (e.raw_code : Int)).1 = Held e.keycode e.shift := by
  rw [poll_entry kb e he]
  rfl

theorem poll_zero_idle (kb : Cardkb) (h : kb.last_keycode = 0) :
    cardkb_poll kb 0 = (kb, [Call.schedule_delayed_work POLL_INTERVAL_MS]) := by
  rw [poll_ok kb 0 (le_refl 0)]
  simp [cardkb_poll_body, h]

theorem poll_zero_held (kb : Cardkb) (h : kb.last_keycode ≠ 0) :
    cardkb_poll kb 0 = (Idle, release_calls kb ++
      [Call.input_sync, Call.schedule_delayed_work POLL_INTERVAL_MS]) := by
  rw [poll_ok kb 0 (le_refl 0)]
  simp [cardkb_poll_body, h, Idle]

theorem poll_unknown (kb : Cardkb) (val : Int) (hpos : 0 ≤ val) (hne : val ≠ 0)
    (hno : ∀ e ∈ cardkb_keymap, (e.raw_code : Int) ≠ val) :
    cardkb_poll kb val = (kb, [Call.schedule_delayed_work POLL_INTERVAL_MS]) := by
  rw [poll_ok kb val hpos]
  simp only [cardkb_poll_body, if_neg hne, scan_miss kb val cardkb_keymap hno, List.nil_append]

/-! ## Runs of ticks -/

theorem sched_mem_of_ok (kb : Cardkb) (v : Int) (h : 0 ≤ v) :
    Call.schedule_delayed_work POLL_INTERVAL_MS ∈ (cardkb_poll kb v).2 := by
  rw [poll_ok kb v h]
  simp

theorem run_cons_ok (kb : Cardkb) (v : Int) (vs : List Int) (h : 0 ≤ v) :
    cardkb_run kb (v :: vs) = ((cardkb_run (cardkb_poll kb v).1 vs).1,
      (cardkb_poll kb v).2 ++ (cardkb_run (cardkb_poll kb v).1 vs).2) := by
  simp only [cardkb_run, if_pos (sched_mem_of_ok kb v h)]

theorem run_cons_error (kb : Cardkb) (v : Int) (vs : List Int) (h : v < 0) :
    cardkb_run kb (v :: vs) = (kb, []) := by
  simp [cardkb_run, poll_error kb v h]

theorem run_replicate_entry (e : KeymapEntry) (he : e ∈ cardkb_keymap) (n : Nat) (kb : Cardkb)
    (hkb : kb.last_keycode = 0 ∨ kb = Held e.keycode e.shift) :
    events (cardkb_run kb (List.replicate n (e.raw_code : Int))).2 =
      (List.replicate n (pressSeq e.keycode e.shift)).flatten := by
  induction n generalizing kb with
  | zero => rfl
  | succ n ih =>
    rw [List.replicate_succ, run_cons_ok kb _ _ (Int.ofNat_nonneg _), events_append,
      events_entry kb e he, state_entry kb e he, ih _ (Or.inr rfl), List.replicate_succ,
      List.flatten_cons]
    congr 1
    have hc : ¬ (kb.last_keycode ≠ 0 ∧
        (kb.last_keycode ≠ e.keycode ∨ kb.last_shift ≠ e.shift)) := by
      rcases hkb with h | h
      · simp [h]
      · simp [h, Held]
    rw [if_neg hc, List.nil_append]

theorem count_keydown_pressSeq (k : Nat) (s : Bool) (hk : k ≠ KEY_LEFTSHIFT) (n : Nat) :
    ((List.replicate n (pressSeq k s)).flatten).count (KeyDown k) = n := by
  induction n with
  | zero => rfl
  | succ n ih =>
    rw [List.replicate_succ, List.flatten_cons, List.count_append, ih]
    have hne : ¬ (KEY_LEFTSHIFT = k) := fun h => hk h.symm
    cases s <;> simp [pressSeq, KeyDown, ShiftDown, hne] <;> omega

/-! ## Counting presses and releases -/

theorem keymap_raw_inj (e e2 : KeymapEntry) (he : e ∈ cardkb_keymap) (he2 : e2 ∈ cardkb_keymap)
    (h : e2.raw_code = e.raw_code) : e2 = e :=
  List.inj_on_of_nodup_map keymap_raw_nodup he2 he h

theorem isSteady_entry (kb : Cardkb) (e : KeymapEntry) (he : e ∈ cardkb_keymap) :
    isSteady kb (e.raw_code : Int) =
      decide (kb.last_keycode ≠ 0 ∧ e.keycode = kb.last_keycode ∧ e.shift = kb.last_shift) := by
  unfold isSteady
  congr 1
  apply propext
  constructor
  · rintro ⟨h0, e2, he2, hr, hk, hs⟩
    have : e2 = e := keymap_raw_inj e e2 he he2 (by exact_mod_cast hr)
    subst this
    exact ⟨h0, hk, hs⟩
  · rintro ⟨h0, hk, hs⟩
    exact ⟨h0, e, he, rfl, hk, hs⟩

theorem isSteady_no_entry (kb : Cardkb) (val : Int)
    (hno : ∀ e ∈ cardkb_keymap, (e.raw_code : Int) ≠ val) : isSteady kb val = false := by
  unfold isSteady
  rw [decide_eq_false_iff_not]
  rintro ⟨_, e, he, hr, _⟩
  exact hno e he hr

theorem keymap_no_zero : ∀ e ∈ cardkb_keymap, (e.raw_code : Int) ≠ 0 := by
  intro e he hc
  exact (keymap_entry_facts e he).1 (by exact_mod_cast hc)

/-- The four ways a tick with a successful read can go. -/
theorem poll_cases (kb : Cardkb) (val : Int) (h : 0 ≤ val) :
    (isSteady kb val = false ∧
      cardkb_poll kb val = (kb, [Call.schedule_delayed_work POLL_INTERVAL_MS])) ∨
    (val = 0 ∧ kb.last_keycode ≠ 0 ∧ isSteady kb val = false ∧
      cardkb_poll kb val = (Idle, release_calls kb ++
        [Call.input_sync, Call.schedule_delayed_work POLL_INTERVAL_MS])) ∨
    (∃ e ∈ cardkb_keymap, (e.raw_code : Int) = val ∧
      isSteady kb val =
        decide (kb.last_keycode ≠ 0 ∧ e.keycode = kb.last_keycode ∧ e.shift = kb.last_shift) ∧
      cardkb_poll kb val = (Held e.keycode e.shift,
        (cardkb_poll_hit kb e).2 ++ [Call.schedule_delayed_work POLL_INTERVAL_MS])) := by
  by_cases hz : val = 0
  · subst hz
    have hs := isSteady_no_entry kb 0 keymap_no_zero
    by_cases hk : kb.last_keycode = 0
    · exact Or.inl ⟨hs, poll_zero_idle kb hk⟩
    · exact Or.inr (Or.inl ⟨rfl, hk, hs, poll_zero_held kb hk⟩)
  · by_cases hex : ∃ e ∈ cardkb_keymap, (e.raw_code : Int) = val
    · obtain ⟨e, he, hr⟩ := hex
      subst hr
      exact Or.inr (Or.inr ⟨e, he, rfl, isSteady_entry kb e he, poll_entry kb e he⟩)
    · push_neg at hex
      exact Or.inl ⟨isSteady_no_entry kb val hex, poll_unknown kb val h hz hex⟩

theorem tick_counts (kb : Cardkb) (val : Int) (h : 0 ≤ val)
    (hwf : kb.last_keycode ≠ KEY_LEFTSHIFT) :
    ((cardkb_poll kb val).2.countP Call.isKeyDown + heldCount kb =
      (cardkb_poll kb val).2.countP Call.isKeyUp + (if isSteady kb val then 1 else 0) +
        heldCount (cardkb_poll kb val).1) ∧
    ((cardkb_poll kb val).2.countP Call.isShiftDown + heldShiftCount kb =
      (cardkb_poll kb val).2.countP Call.isShiftUp +
        (if isSteady kb val && kb.last_shift then 1 else 0) +
        heldShiftCount (cardkb_poll kb val).1) ∧
    (cardkb_poll kb val).1.last_keycode ≠ KEY_LEFTSHIFT := by
  rcases poll_cases kb val h with ⟨hs, hp⟩ | ⟨_, hk, hs, hp⟩ | ⟨e, he, _, hs, hp⟩
  · rw [hp, hs]
    simp [Call.isKeyDown, Call.isKeyUp, Call.isShiftDown, Call.isShiftUp, hwf]
  · rw [hp, hs]
    cases hsh : kb.last_shift <;>
      simp [release_calls, Call.isKeyDown, Call.isKeyUp, Call.isShiftDown, Call.isShiftUp, hwf,
        hk, hsh, heldCount, heldShiftCount, Idle]
  · obtain ⟨_, he0, he42⟩ := keymap_entry_facts e he
    rw [hp, hs]
    by_cases hk : kb.last_keycode = 0
    · cases hsh : kb.last_shift <;> cases hes : e.shift <;>
        simp [cardkb_poll_hit, release_calls, Call.isKeyDown, Call.isKeyUp, Call.isShiftDown,
          Call.isShiftUp, hwf, hk, hsh, hes, heldCount, heldShiftCount, Held, he0, he42]
    · by_cases hsame : e.keycode = kb.last_keycode
      · cases hsh : kb.last_shift <;> cases hes : e.shift <;>
          simp [cardkb_poll_hit, release_calls, Call.isKeyDown, Call.isKeyUp, Call.isShiftDown,
            Call.isShiftUp, hwf, hk, hsh, hes, heldCount, heldShiftCount, Held, he0, he42,
            hsame]
      · have hsame2 : ¬ (kb.last_keycode = e.keycode) := fun hc => hsame hc.symm
        cases hsh : kb.last_shift <;> cases hes : e.shift <;>
          simp [cardkb_poll_hit, release_calls, Call.isKeyDown, Call.isKeyUp, Call.isShiftDown,
            Call.isShiftUp, hwf, hk, hsh, hes, heldCount, heldShiftCount, Held, he0, he42,
            hsame, hsame2]

theorem run_counts (vals : List Int) (hok : ∀ v ∈ vals, 0 ≤ v) (kb : Cardkb)
    (hwf : kb.last_keycode ≠ KEY_LEFTSHIFT) :
    ((cardkb_run kb vals).2.countP Call.isKeyDown + heldCount kb =
      (cardkb_run kb vals).2.countP Call.isKeyUp + steadyTicks kb vals +
        heldCount (cardkb_run kb vals).1) ∧
    ((cardkb_run kb vals).2.countP Call.isShiftDown + heldShiftCount kb =
      (cardkb_run kb vals).2.countP Call.isShiftUp + steadyShiftTicks kb vals +
        heldShiftCount (cardkb_run kb vals).1) := by
  induction vals generalizing kb with
  | nil => simp [cardkb_run, steadyTicks, steadyShiftTicks]
  | cons v vs ih =>
    have hv : 0 ≤ v := hok v (List.mem_cons_self v vs)
    obtain ⟨t1, t2, t3⟩ := tick_counts kb v hv hwf
    obtain ⟨r1, r2⟩ := ih (fun w hw => hok w (List.mem_cons_of_mem v hw)) (cardkb_poll kb v).1 t3
    rw [run_cons_ok kb v vs hv]
    simp only [steadyTicks, steadyShiftTicks, if_neg (not_lt.2 hv), List.countP_append]
    constructor <;> omega

theorem run_append (a b : List Int) (hok : ∀ v ∈ a, 0 ≤ v) (kb : Cardkb) :
    cardkb_run kb (a ++ b) = ((cardkb_run (cardkb_run kb a).1 b).1,
      (cardkb_run kb a).2 ++ (cardkb_run (cardkb_run kb a).1 b).2) := by
  induction a generalizing kb with
  | nil => simp [cardkb_run]
  | cons v vs ih =>
    have hv : 0 ≤ v := hok v (List.mem_cons_self v vs)
    rw [List.cons_append, run_cons_ok kb v _ hv, run_cons_ok kb v vs hv,
      ih (fun w hw => hok w (List.mem_cons_of_mem v hw))]
    simp

theorem run_zero_last (kb : Cardkb) : (cardkb_run kb [0]).1.last_keycode = 0 := by
  rw [run_cons_ok kb 0 [] (le_refl 0)]
  by_cases hk : kb.last_keycode = 0
  · rw [poll_zero_idle kb hk]
    exact hk
  · rw [poll_zero_held kb hk]
    rfl

theorem countP_events (p : Call → Bool) (hp : ∀ c, p c = true → c.isReport = true)
    (cs : List Call) : (events cs).countP p = cs.countP p := by
  induction cs with
  | nil => rfl
  | cons c cs ih =>
    by_cases hc : c.isReport = true
    · simp [events, List.filter_cons, hc, List.countP_cons] at ih ⊢
      rw [ih]
    · have hpc : ¬ (p c = true) := fun h => hc (hp c h)
      simp [events, List.filter_cons, hc, List.countP_cons, hpc] at ih ⊢
      exact ih

theorem steadyShift_le (vals : List Int) (kb : Cardkb) :
    steadyShiftTicks kb vals ≤ steadyTicks kb vals := by
  induction vals generalizing kb with
  | nil => simp [steadyTicks, steadyShiftTicks]
  | cons v vs ih =>
    have := ih (cardkb_poll kb v).1
    simp only [steadyTicks, steadyShiftTicks]
    split
    · exact le_refl 0
    · cases isSteady kb v <;> cases kb.last_shift <;> simp <;> omega

/-! ## Reports per key -/

theorem reportsOf_append (k : Nat) (a b : List Call) :
    reportsOf k (a ++ b) = reportsOf k a ++ reportsOf k b := by
  simp [reportsOf]

/-- Shape of the reports a tick makes for one key, in terms of whether the key
is down before and after. -/
theorem tick_reports (kb : Cardkb) (val : Int) (h : 0 ≤ val)
    (hwf : kb.last_keycode ≠ KEY_LEFTSHIFT) (k : Nat) :
    (reportsOf k (cardkb_poll kb val).2 = [] ∧
      isDown (cardkb_poll kb val).1 k = isDown kb k) ∨
    (isSteady kb val = false ∧
      reportsOf k (cardkb_poll kb val).2 =
        (if isDown kb k then [0] else []) ++
          (if isDown (cardkb_poll kb val).1 k then [1] else [])) ∨
    (isSteady kb val = true ∧ isDown (cardkb_poll kb val).1 k = isDown kb k ∧
      reportsOf k (cardkb_poll kb val).2 = if isDown kb k then [1] else []) := by
  have hwfb : ¬ (KEY_LEFTSHIFT = kb.last_keycode) := fun hc => hwf hc.symm
  rcases poll_cases kb val h with ⟨hs, hp⟩ | ⟨_, hk, hs, hp⟩ | ⟨e, he, _, hs, hp⟩
  · left
    rw [hp]
    exact ⟨rfl, rfl⟩
  · right; left
    refine ⟨hs, ?_⟩
    rw [hp]
    cases hsh : kb.last_shift <;> by_cases h1 : k = kb.last_keycode <;>
      by_cases h2 : k = KEY_LEFTSHIFT <;>
      simp_all [reportsOf, release_calls, Call.valueFor, isDown, Idle]
  · obtain ⟨_, he0, he42⟩ := keymap_entry_facts e he
    have he42b : ¬ (KEY_LEFTSHIFT = e.keycode) := fun hc => he42 hc.symm
    by_cases hk : kb.last_keycode = 0
    · right; left
      refine ⟨by rw [hs]; simp [hk], ?_⟩
      rw [hp]
      cases hes : e.shift <;> by_cases h1 : k = e.keycode <;>
        by_cases h2 : k = KEY_LEFTSHIFT <;>
        simp_all [reportsOf, cardkb_poll_hit, release_calls, Call.valueFor, isDown, Held]
    · by_cases hsame : e.keycode = kb.last_keycode ∧ e.shift = kb.last_shift
      · right; right
        refine ⟨by rw [hs]; simp [hk, hsame], ?_⟩
        rw [hp]
        obtain ⟨hs1, hs2⟩ := hsame
        cases hes : e.shift <;> by_cases h1 : k = e.keycode <;>
          by_cases h2 : k = KEY_LEFTSHIFT <;>
          simp_all [reportsOf, cardkb_poll_hit, release_calls, Call.valueFor, isDown, Held]
      · right; left
        refine ⟨by rw [hs]; simp [hk, hsame], ?_⟩
        rw [hp]
        have hguard : kb.last_keycode ≠ 0 ∧
            (kb.last_keycode ≠ e.keycode ∨ kb.last_shift ≠ e.shift) := by
          refine ⟨hk, ?_⟩
          by_contra hc
          push_neg at hc
          exact hsame ⟨hc.1.symm, hc.2.symm⟩
        simp only [cardkb_poll_hit, if_pos hguard]
        cases hes : e.shift <;> cases hsh : kb.last_shift <;> by_cases h1 : k = e.keycode <;>
          by_cases h2 : k = KEY_LEFTSHIFT <;> by_cases h3 : k = kb.last_keycode <;>
          simp_all [reportsOf, release_calls, Call.valueFor, isDown, Held]

theorem wf_poll (kb : Cardkb) (val : Int) (hwf : kb.last_keycode ≠ KEY_LEFTSHIFT) :
    (cardkb_poll kb val).1.last_keycode ≠ KEY_LEFTSHIFT := by
  by_cases h : 0 ≤ val
  · exact (tick_counts kb val h hwf).2.2
  · rw [poll_error kb val (not_le.1 h)]
    exact hwf

/-- No double release along a run: the reports for `k` never hold two
consecutive zeros, and if they start with a zero then `k` was down. -/
theorem run_release_chain (vals : List Int) (kb : Cardkb)
    (hwf : kb.last_keycode ≠ KEY_LEFTSHIFT) (k : Nat) :
    List.Chain' (fun a b => ¬ (a = 0 ∧ b = 0)) (reportsOf k (cardkb_run kb vals).2) ∧
    ((reportsOf k (cardkb_run kb vals).2).head? = some 0 → isDown kb k = true) := by
  induction vals generalizing kb with
  | nil => simp [cardkb_run, reportsOf]
  | cons v vs ih =>
    by_cases hv : 0 ≤ v
    · obtain ⟨ih1, ih2⟩ := ih (cardkb_poll kb v).1 (wf_poll kb v hwf)
      rw [run_cons_ok kb v vs hv, reportsOf_append]
      generalize reportsOf k (cardkb_run (cardkb_poll kb v).1 vs).2 = rs at ih1 ih2 ⊢
      rcases tick_reports kb v hv hwf k with ⟨ht, hd⟩ | ⟨_, ht⟩ | ⟨_, hd, ht⟩
      · rw [ht, List.nil_append]
        exact ⟨ih1, fun h => hd ▸ ih2 h⟩
      · rw [ht]
        cases hd1 : isDown kb k <;> cases hd2 : isDown (cardkb_poll kb v).1 k <;>
          simp_all [List.chain'_cons']
        all_goals (intro y hy hy0; exact ih2 (hy0 ▸ hy))
      · rw [ht]
        cases hd1 : isDown kb k <;> simp_all [List.chain'_cons']
    · rw [run_cons_error kb v vs (not_le.1 hv)]
      simp [reportsOf]

/-- No double press along a run without steady-repeat ticks: the reports for
`k` never hold two consecutive ones, and if they start with a one then `k` was
not down. -/
theorem run_press_chain (vals : List Int) (kb : Cardkb)
    (hwf : kb.last_keycode ≠ KEY_LEFTSHIFT) (hst : steadyTicks kb vals = 0) (k : Nat) :
    List.Chain' (fun a b => ¬ (a = 1 ∧ b = 1)) (reportsOf k (cardkb_run kb vals).2) ∧
    ((reportsOf k (cardkb_run kb vals).2).head? = some 1 → isDown kb k = false) := by
  induction vals generalizing kb with
  | nil => simp [cardkb_run, reportsOf]
  | cons v vs ih =>
    by_cases hv : 0 ≤ v
    · simp only [steadyTicks, if_neg (not_lt.2 hv)] at hst
      have hst1 : isSteady kb v = false := by
        cases hsv : isSteady kb v
        · rfl
        · rw [hsv] at hst
          simp at hst
      have hst2 : steadyTicks (cardkb_poll kb v).1 vs = 0 := by omega
      obtain ⟨ih1, ih2⟩ := ih (cardkb_poll kb v).1 (wf_poll kb v hwf) hst2
      rw [run_cons_ok kb v vs hv, reportsOf_append]
      generalize reportsOf k (cardkb_run (cardkb_poll kb v).1 vs).2 = rs at ih1 ih2 ⊢
      rcases tick_reports kb v hv hwf k with ⟨ht, hd⟩ | ⟨_, ht⟩ | ⟨hsv, _, _⟩
      · rw [ht, List.nil_append]
        exact ⟨ih1, fun h => hd ▸ ih2 h⟩
      · rw [ht]
        cases hd1 : isDown kb k <;> cases hd2 : isDown (cardkb_poll kb v).1 k <;>
          simp_all [List.chain'_cons']
        all_goals (intro y hy hy0; exact ih2 (hy0 ▸ hy))
      · rw [hst1] at hsv
        cases hsv
    · rw [run_cons_error kb v vs (not_le.1 hv)]
      simp [reportsOf]

/-! ## The consumer's set of keys down -/

theorem sink_run_append (D : Finset Nat) (a b : List Call) :
    sink_run D (a ++ b) = sink_run (sink_run D a) b := by
  simp [sink_run, List.foldl_append]

/-- A completed tick takes the prescribed set of the old state to that of the
new state. -/
theorem tick_sink (kb : Cardkb) (val : Int) :
    sink_run (downSet kb) (cardkb_poll kb val).2 = downSet (cardkb_poll kb val).1 := by
  by_cases h : 0 ≤ val
  · rcases poll_cases kb val h with ⟨_, hp⟩ | ⟨_, hk, _, hp⟩ | ⟨e, he, _, _, hp⟩
    · rw [hp]
      rfl
    · rw [hp]
      cases hsh : kb.last_shift <;>
        · ext x
          simp [sink_run, sink_step, release_calls, downSet, hk, hsh, Idle]
          try omega
    · obtain ⟨_, he0, he42⟩ := keymap_entry_facts e he
      rw [hp]
      by_cases hk : kb.last_keycode = 0
      · cases hes : e.shift <;>
          · ext x
            simp [sink_run, sink_step, cardkb_poll_hit, downSet, hk, hes, Held, he0]
            try omega
      · by_cases hsame : kb.last_keycode = e.keycode ∧ kb.last_shift = e.shift
        · obtain ⟨hs1, hs2⟩ := hsame
          cases hes : e.shift <;>
            · ext x
              simp [sink_run, sink_step, cardkb_poll_hit, downSet, hk, hes, Held, he0, hs1,
                hs2]
              try omega
        · have hguard : kb.last_keycode ≠ 0 ∧
              (kb.last_keycode ≠ e.keycode ∨ kb.last_shift ≠ e.shift) := by
            refine ⟨hk, ?_⟩
            by_contra hc
            push_neg at hc
            exact hsame hc
          simp only [cardkb_poll_hit, if_pos hguard]
          cases hes : e.shift <;> cases hsh : kb.last_shift <;>
            · ext x
              simp [sink_run, sink_step, release_calls, downSet, hk, hes, hsh, Held, he0]
              try omega
  · rw [poll_error kb val (not_le.1 h)]
    rfl

theorem run_sink (vals : List Int) (kb : Cardkb) :
    sink_run (downSet kb) (cardkb_run kb vals).2 = downSet (cardkb_run kb vals).1 := by
  induction vals generalizing kb with
  | nil => rfl
  | cons v vs ih =>
    by_cases hv : 0 ≤ v
    · rw [run_cons_ok kb v vs hv, sink_run_append, tick_sink kb v]
      exact ih _
    · rw [run_cons_error kb v vs (not_le.1 hv)]
      rfl

theorem sink_trace_append (D : Finset Nat) (a b : List Call) (S : Finset Nat) :
    S ∈ sink_trace D (a ++ b) ↔ S ∈ sink_trace D a ∨ S ∈ sink_trace (sink_run D a) b := by
  induction a generalizing D with
  | nil =>
    cases b with
    | nil => simp [sink_trace, sink_run]
    | cons c cs => simp [sink_trace, sink_run]
  | cons c cs ih =>
    rw [List.cons_append]
    simp only [sink_trace, List.mem_cons]
    rw [ih]
    simp only [sink_run, List.foldl_cons]
    tauto

theorem sink_run_take_mem (D : Finset Nat) (cs : List Call) (n : Nat) :
    sink_run D (cs.take n) ∈ sink_trace D cs := by
  induction cs generalizing D n with
  | nil => simp [sink_run, sink_trace]
  | cons c cs ih =>
    cases n with
    | zero => simp [sink_run, sink_trace]
    | succ n =>
      simp only [List.take_succ_cons, sink_trace, List.mem_cons]
      right
      exact ih (sink_step D c) n

/-- In the middle of a tick too, at most one ordinary key is down. -/
theorem tick_trace (kb : Cardkb) (val : Int) :
    ∀ S ∈ sink_trace (downSet kb) (cardkb_poll kb val).2, AtMostOneKey S := by
  by_cases h : 0 ≤ val
  · rcases poll_cases kb val h with ⟨_, hp⟩ | ⟨_, hk, _, hp⟩ | ⟨e, he, _, _, hp⟩
    · rw [hp]
      cases hsh : kb.last_shift <;> by_cases hk : kb.last_keycode = 0 <;>
        simp [sink_trace, sink_step, downSet, hk, hsh, AtMostOneKey]
    · rw [hp]
      cases hsh : kb.last_shift <;>
        simp [sink_trace, sink_step, release_calls, downSet, hk, hsh, AtMostOneKey]
      all_goals (repeat' apply And.intro)
      all_goals (intros; omega)
    · obtain ⟨_, he0, he42⟩ := keymap_entry_facts e he
      rw [hp]
      by_cases hk : kb.last_keycode = 0
      · cases hes : e.shift <;>
          simp [sink_trace, sink_step, cardkb_poll_hit, downSet, hk, hes, Held, he0,
            AtMostOneKey]
      · by_cases hsame : kb.last_keycode = e.keycode ∧ kb.last_shift = e.shift
        · obtain ⟨hs1, hs2⟩ := hsame
          cases hes : e.shift <;>
            simp [sink_trace, sink_step, cardkb_poll_hit, downSet, hk, hes, Held, he0, hs1,
              hs2, AtMostOneKey]
        · have hguard : kb.last_keycode ≠ 0 ∧
              (kb.last_keycode ≠ e.keycode ∨ kb.last_shift ≠ e.shift) := by
            refine ⟨hk, ?_⟩
            by_contra hc
            push_neg at hc
            exact hsame hc
          simp only [cardkb_poll_hit, if_pos hguard]
          cases hes : e.shift <;> cases hsh : kb.last_shift <;>
            simp [sink_trace, sink_step, release_calls, downSet, hk, hes, hsh, Held, he0,
              AtMostOneKey]
          all_goals (repeat' apply And.intro)
          all_goals (intros; omega)
  · rw [poll_error kb val (not_le.1 h)]
    cases hsh : kb.last_shift <;> by_cases hk : kb.last_keycode = 0 <;>
      simp [sink_trace, downSet, hk, hsh, AtMostOneKey]

theorem downSet_atMostOne (kb : Cardkb) : AtMostOneKey (downSet kb) := by
  cases hsh : kb.last_shift <;> by_cases hk : kb.last_keycode = 0 <;>
    simp [downSet, hk, hsh, AtMostOneKey]

theorem run_trace (vals : List Int) (kb : Cardkb) :
    ∀ S ∈ sink_trace (downSet kb) (cardkb_run kb vals).2, AtMostOneKey S := by
  induction vals generalizing kb with
  | nil =>
    intro S hS
    simp only [cardkb_run, sink_trace, List.mem_singleton] at hS
    rw [hS]
    exact downSet_atMostOne kb
  | cons v vs ih =>
    by_cases hv : 0 ≤ v
    · rw [run_cons_ok kb v vs hv]
      intro S hS
      rcases (sink_trace_append _ _ _ S).1 hS with h | h
      · exact tick_trace kb v S h
      · rw [tick_sink kb v] at h
        exact ih _ S h
    · rw [run_cons_error kb v vs (not_le.1 hv)]
      intro S hS
      simp only [sink_trace, List.mem_singleton] at hS
      rw [hS]
      exact downSet_atMostOne kb

theorem keys_run_eq (cs : List Call) (D : Finset Nat) :
    keys_run (D.erase KEY_LEFTSHIFT) cs = (sink_run D cs).erase KEY_LEFTSHIFT := by
  induction cs generalizing D with
  | nil => rfl
  | cons c cs ih =>
    simp only [keys_run, sink_run, List.foldl_cons] at ih ⊢
    rw [← ih]
    congr 1
    cases c with
    | input_report_key c v =>
      by_cases hc : c = KEY_LEFTSHIFT <;> by_cases hv : v = 0 <;>
        · ext x
          simp [keys_step, sink_step, hc, hv]
          try (by_cases hx : x = c <;> simp_all)
    | input_sync => rfl
    | schedule_delayed_work ms => rfl

theorem card_erase_shift_le_one (S : Finset Nat) (h : AtMostOneKey S) :
    (S.erase KEY_LEFTSHIFT).card ≤ 1 := by
  rw [Finset.card_le_one]
  intro a ha b hb
  rw [Finset.mem_erase] at ha hb
  exact h a ha.2 b hb.2 ha.1 hb.1

/-! ## Presses tagged with their tick -/

theorem run_tagged_fst (vals : List Int) (kb : Cardkb) :
    (cardkb_run_tagged kb vals).map Prod.fst = (cardkb_run kb vals).2 := by
  induction vals generalizing kb with
  | nil => rfl
  | cons v vs ih =>
    have hmap : ∀ (l : List Call) (b : Bool), (l.map (fun c => (c, b))).map Prod.fst = l := by
      intro l b
      induction l with
      | nil => rfl
      | cons c l ihl => simp only [List.map_cons, ihl]
    simp only [cardkb_run_tagged, cardkb_run]
    split
    · rw [List.map_append, hmap, ih]
    · rw [hmap]

theorem taggedReportsOf_append (k : Nat) (a b : List (Call × Bool)) :
    taggedReportsOf k (a ++ b) = taggedReportsOf k a ++ taggedReportsOf k b := by
  simp [taggedReportsOf]

theorem taggedReportsOf_map (k : Nat) (cs : List Call) (b : Bool) :
    taggedReportsOf k (cs.map (fun c => (c, b))) = (reportsOf k cs).map (fun v => (v, b)) := by
  induction cs with
  | nil => rfl
  | cons c cs ih =>
    simp only [taggedReportsOf, reportsOf, List.map_cons, List.filterMap_cons] at ih ⊢
    cases hv : Call.valueFor k c with
    | none => simpa [hv] using ih
    | some v => simpa [hv] using ih

theorem run_tagged_cons_ok (kb : Cardkb) (v : Int) (vs : List Int) (h : 0 ≤ v) :
    cardkb_run_tagged kb (v :: vs) =
      (cardkb_poll kb v).2.map (fun c => (c, isSteady kb v)) ++
        cardkb_run_tagged (cardkb_poll kb v).1 vs := by
  simp only [cardkb_run_tagged, if_pos (sched_mem_of_ok kb v h)]

theorem run_tagged_cons_error (kb : Cardkb) (v : Int) (vs : List Int) (h : v < 0) :
    cardkb_run_tagged kb (v :: vs) = [] := by
  simp [cardkb_run_tagged, poll_error kb v h]

/-- Along a run, a press of `k` that directly follows a press of `k` comes from
a steady-repeat tick; and if the first report for `k` is a press from a tick
that is not a steady repeat, then `k` was not down. -/
theorem run_tagged_chain (vals : List Int) (kb : Cardkb)
    (hwf : kb.last_keycode ≠ KEY_LEFTSHIFT) (k : Nat) :
    List.Chain' (fun a b => a.1 = 1 → b.1 = 1 → b.2 = true)
      (taggedReportsOf k (cardkb_run_tagged kb vals)) ∧
    (∀ p, (taggedReportsOf k (cardkb_run_tagged kb vals)).head? = some p →
      p.1 = 1 → p.2 = false → isDown kb k = false) := by
  induction vals generalizing kb with
  | nil => simp [cardkb_run_tagged, taggedReportsOf]
  | cons v vs ih =>
    by_cases hv : 0 ≤ v
    · obtain ⟨ih1, ih2⟩ := ih (cardkb_poll kb v).1 (wf_poll kb v hwf)
      rw [run_tagged_cons_ok kb v vs hv, taggedReportsOf_append, taggedReportsOf_map]
      generalize taggedReportsOf k (cardkb_run_tagged (cardkb_poll kb v).1 vs) = rs at ih1 ih2 ⊢
      rcases tick_reports kb v hv hwf k with ⟨ht, hd⟩ | ⟨hs, ht⟩ | ⟨hs, hd, ht⟩
      · rw [ht, List.map_nil, List.nil_append]
        exact ⟨ih1, fun p hp h1 h2 => hd ▸ ih2 p hp h1 h2⟩
      · rw [ht, hs]
        cases hd1 : isDown kb k <;> cases hd2 : isDown (cardkb_poll kb v).1 k
        · simp only [Bool.false_eq_true, if_false, List.append_nil, List.map_nil,
            List.nil_append]
          exact ⟨ih1, fun _ _ _ _ => by first | rfl | trivial⟩
        · simp only [Bool.false_eq_true, if_false, if_true, List.nil_append, List.map_cons,
            List.map_nil, List.singleton_append, List.chain'_cons', List.head?_cons,
            Option.some.injEq]
          refine ⟨⟨?_, ih1⟩, fun _ _ _ _ => by first | rfl | trivial⟩
          intro y hy _ hy1
          by_contra hy2
          have := ih2 y hy hy1 (by simpa using hy2)
          rw [hd2] at this
          cases this
        · simp only [Bool.false_eq_true, if_false, if_true, List.append_nil, List.map_cons,
            List.map_nil, List.singleton_append, List.chain'_cons', List.head?_cons,
            Option.some.injEq]
          refine ⟨⟨?_, ih1⟩, ?_⟩
          · intro y _ h0
            simp at h0
          · intro p hp h1
            rw [← hp] at h1
            simp at h1
        · simp only [if_true, List.map_cons, List.map_nil, List.singleton_append,
            List.cons_append, List.nil_append, List.chain'_cons', List.head?_cons,
            Option.some.injEq]
          refine ⟨⟨?_, ?_, ih1⟩, ?_⟩
          · intro y _ h0
            simp at h0
          · intro y hy _ hy1
            by_contra hy2
            have := ih2 y hy hy1 (by simpa using hy2)
            rw [hd2] at this
            cases this
          · intro p hp h1
            rw [← hp] at h1
            simp at h1
      · rw [ht, hs]
        cases hd1 : isDown kb k
        · simp only [Bool.false_eq_true, if_false, List.map_nil, List.nil_append]
          exact ⟨ih1, fun _ _ _ _ => by first | rfl | trivial⟩
        · simp only [if_true, List.map_cons, List.map_nil, List.singleton_append,
            List.chain'_cons', List.head?_cons, Option.some.injEq]
          refine ⟨⟨?_, ih1⟩, ?_⟩
          · intro y hy _ hy1
            by_contra hy2
            have := ih2 y hy hy1 (by simpa using hy2)
            rw [hd, hd1] at this
            cases this
          · intro p hp _ h2
            rw [← hp] at h2
            simp at h2
    · rw [run_tagged_cons_error kb v vs (not_le.1 hv)]
      simp [taggedReportsOf]

theorem steady_tick_calls (r k : Nat) (s : Bool)
    (hm : KeymapEntry.mk r k s ∈ cardkb_keymap) :
    (cardkb_poll (Held k s) (r : Int)).2 =
      pressSeq k s ++ [Call.input_sync, Call.schedule_delayed_work POLL_INTERVAL_MS] := by
  have h := poll_entry (Held k s) _ hm
  simp only at h
  rw [h]
  have hc : ¬ ((Held k s).last_keycode ≠ 0 ∧
      ((Held k s).last_keycode ≠ k ∨ (Held k s).last_shift ≠ s)) := by
    simp [Held]
  simp only [cardkb_poll_hit, if_neg hc]
  cases s <;> rfl

/-! ## C1: steady repeat -/

/-- C1, refuted as stated: with `0x61` mapped to `(KEY_A, false)`, a tick that
reads `0x61` while `(KEY_A, false)` is already held is not silent, it reports
`KeyDown KEY_A` again, and the run `[0x61, 0x61, 0x00]` reports three key events
rather than `KeyDown KEY_A`, `KeyUp KEY_A`. -/
theorem steady_repeat_not_silent :
    KeymapEntry.mk 0x61 KEY_A false ∈ cardkb_keymap ∧
    events (cardkb_poll (Held KEY_A false) 0x61).2 = [KeyDown KEY_A] ∧
    events (cardkb_poll (Held KEY_A false) 0x61).2 ≠ [] ∧
    events (cardkb_run Idle [0x61, 0x61, 0x00]).2 ≠ [KeyDown KEY_A, KeyUp KEY_A] := by
  decide

/-- C1, amended: for every raw byte `r` that the keymap maps to `(k, s)`, a tick
reading `r` while `Held(k, s)` reports no release, reports the press sequence
`[ShiftDown if s, KeyDown k]` again, follows it with exactly one `input_sync`
(the calls of the tick are the press sequence, `input_sync`, the rescheduling)
and leaves the state unchanged; from `Idle`, reading `r` `N` times in a row
reports the press sequence `N` times, hence `KeyDown k` exactly `N` times; and
`[0x61, 0x61, 0x00]` reports `KeyDown KEY_A`, `KeyDown KEY_A`, `KeyUp KEY_A`. -/
theorem steady_repeat_reissues_press (r k : Nat) (s : Bool) (N : Nat)
    (hm : KeymapEntry.mk r k s ∈ cardkb_keymap) :
    events (cardkb_poll (Held k s) (r : Int)).2 = pressSeq k s ∧
    (cardkb_poll (Held k s) (r : Int)).2 =
      pressSeq k s ++ [Call.input_sync, Call.schedule_delayed_work POLL_INTERVAL_MS] ∧
    (cardkb_poll (Held k s) (r : Int)).2.count Call.input_sync = 1 ∧
    (cardkb_poll (Held k s) (r : Int)).1 = Held k s ∧
    events (cardkb_run Idle (List.replicate N (r : Int))).2 =
      (List.replicate N (pressSeq k s)).flatten ∧
    (events (cardkb_run Idle (List.replicate N (r : Int))).2).count (KeyDown k) = N ∧
    events (cardkb_run Idle [0x61, 0x61, 0x00]).2 =
      [KeyDown KEY_A, KeyDown KEY_A, KeyUp KEY_A] := by
  have hrun := run_replicate_entry _ hm N Idle (Or.inl rfl)
  have hcalls := steady_tick_calls r k s hm
  refine ⟨?_, hcalls, ?_, state_entry (Held k s) _ hm, hrun, ?_, by decide⟩
  · have h := events_entry (Held k s) _ hm
    simpa [Held] using h
  · rw [hcalls]
    cases s <;> simp [pressSeq, ShiftDown, KeyDown]
  · have h := count_keydown_pressSeq k s (keymap_entry_facts _ hm).2.2 N
    have hrun2 : events (cardkb_run Idle (List.replicate N (r : Int))).2 =
        (List.replicate N (pressSeq k s)).flatten := hrun
    rw [hrun2]
    exact h

/-- Witness for C1 (amended) at `r = 0x41`, `(k, s) = (KEY_A, true)`, `N = 2`. -/
theorem steady_repeat_reissues_press_witness :
    KeymapEntry.mk 0x41 KEY_A true ∈ cardkb_keymap ∧
    (events (cardkb_poll (Held KEY_A true) ((0x41 : Nat) : Int)).2 = pressSeq KEY_A true ∧
    (cardkb_poll (Held KEY_A true) ((0x41 : Nat) : Int)).2 =
      pressSeq KEY_A true ++
        [Call.input_sync, Call.schedule_delayed_work POLL_INTERVAL_MS] ∧
    (cardkb_poll (Held KEY_A true) ((0x41 : Nat) : Int)).2.count Call.input_sync = 1 ∧
    (cardkb_poll (Held KEY_A true) ((0x41 : Nat) : Int)).1 = Held KEY_A true ∧
    events (cardkb_run Idle (List.replicate 2 ((0x41 : Nat) : Int))).2 =
      (List.replicate 2 (pressSeq KEY_A true)).flatten ∧
    (events (cardkb_run Idle (List.replicate 2 ((0x41 : Nat) : Int))).2).count
      (KeyDown KEY_A) = 2 ∧
    events (cardkb_run Idle [0x61, 0x61, 0x00]).2 =
      [KeyDown KEY_A, KeyDown KEY_A, KeyUp KEY_A]) :=
  ⟨by decide, steady_repeat_reissues_press 0x41 KEY_A true 2 (by decide)⟩

/-! ## C2: implicit key switch -/

/-- C2: from `Held(k1, s1)`, a tick reading a raw byte `r` that the keymap maps
to `(k2, s2)` with `(k1, s1) ≠ (k2, s2)` reports exactly
`[ShiftUp if s1, KeyUp k1, ShiftDown if s2, KeyDown k2]` in that order and the
new state is `Held(k2, s2)`; in particular from `Held(k1, false)` a byte mapped
to `(k2, true)` reports exactly `KeyUp k1`, `ShiftDown`, `KeyDown k2`. -/
theorem implicit_switch (k1 : Nat) (s1 : Bool) (r k2 : Nat) (s2 : Bool)
    (hk : k1 ≠ 0) (hm : KeymapEntry.mk r k2 s2 ∈ cardkb_keymap) :
    ((k1, s1) ≠ (k2, s2) →
      events (cardkb_poll (Held k1 s1) (r : Int)).2 =
        (if s1 then [ShiftUp] else []) ++ [KeyUp k1] ++
          ((if s2 then [ShiftDown] else []) ++ [KeyDown k2]) ∧
      (cardkb_poll (Held k1 s1) (r : Int)).1 = Held k2 s2) ∧
    (s1 = false → s2 = true →
      events (cardkb_poll (Held k1 s1) (r : Int)).2 = [KeyUp k1, ShiftDown, KeyDown k2]) := by
  have hev := events_entry (Held k1 s1) _ hm
  have hst := state_entry (Held k1 s1) _ hm
  simp only [Held] at hev hst ⊢
  constructor
  · intro hne
    have hc : k1 ≠ 0 ∧ (k1 ≠ k2 ∨ s1 ≠ s2) := by
      refine ⟨hk, ?_⟩
      by_contra hcon
      push_neg at hcon
      exact hne (by rw [hcon.1, hcon.2])
    rw [hev, if_pos hc]
    exact ⟨rfl, hst⟩
  · intro h1 h2
    have hc : k1 ≠ 0 ∧ (k1 ≠ k2 ∨ s1 ≠ s2) := ⟨hk, Or.inr (by simp [h1, h2])⟩
    rw [hev, if_pos hc, h1, h2]
    rfl

/-- Witness for C2: from `Held(KEY_A, false)`, the byte `0x42` (`(KEY_B, true)`). -/
theorem implicit_switch_witness :
    KEY_A ≠ 0 ∧ KeymapEntry.mk 0x42 KEY_B true ∈ cardkb_keymap ∧
    (((KEY_A, false) ≠ (KEY_B, true) →
      events (cardkb_poll (Held KEY_A false) ((0x42 : Nat) : Int)).2 =
        (if false then [ShiftUp] else []) ++ [KeyUp KEY_A] ++
          ((if true then [ShiftDown] else []) ++ [KeyDown KEY_B]) ∧
      (cardkb_poll (Held KEY_A false) ((0x42 : Nat) : Int)).1 = Held KEY_B true) ∧
    (false = false → true = true →
      events (cardkb_poll (Held KEY_A false) ((0x42 : Nat) : Int)).2 =
        [KeyUp KEY_A, ShiftDown, KeyDown KEY_B])) :=
  ⟨by decide, by decide, implicit_switch KEY_A false 0x42 KEY_B true (by decide) (by decide)⟩

/-! ## C3: release sentinel -/

/-- C3: a tick that reads `0x00` reports nothing and leaves the state as it is
when `last_keycode = 0` (so `Idle` stays `Idle`); from `Held(k, s)` it reports
exactly `[ShiftUp if s, KeyUp k]` and the new state is `Idle`
(`last_keycode = 0`, `last_shift = false`). -/
theorem release_sentinel (kb : Cardkb) :
    (kb.last_keycode = 0 →
      events (cardkb_poll kb 0).2 = [] ∧ (cardkb_poll kb 0).1 = kb) ∧
    (kb.last_keycode ≠ 0 →
      events (cardkb_poll kb 0).2 =
        (if kb.last_shift then [ShiftUp] else []) ++ [KeyUp kb.last_keycode] ∧
      (cardkb_poll kb 0).1 = Idle ∧
      (cardkb_poll kb 0).1.last_keycode = 0 ∧ (cardkb_poll kb 0).1.last_shift = false) := by
  constructor
  · intro h
    rw [poll_zero_idle kb h]
    exact ⟨rfl, rfl⟩
  · intro h
    rw [poll_zero_held kb h]
    refine ⟨?_, rfl, rfl, rfl⟩
    rw [events_append, events_release]
    simp [events, Call.isReport, releaseSeq]

/-- Witness for C3 at `Idle` and at `Held(KEY_A, true)`. -/
theorem release_sentinel_witness :
    (events (cardkb_poll Idle 0).2 = [] ∧ (cardkb_poll Idle 0).1 = Idle) ∧
    (events (cardkb_poll (Held KEY_A true) 0).2 = [ShiftUp, KeyUp KEY_A] ∧
      (cardkb_poll (Held KEY_A true) 0).1 = Idle) :=
  ⟨(release_sentinel Idle).1 rfl,
    ((release_sentinel (Held KEY_A true)).2 (by decide)).1,
    ((release_sentinel (Held KEY_A true)).2 (by decide)).2.1⟩

/-! ## C4: press from Idle -/

/-- C4: for every raw byte `r` that the keymap maps to `(k2, s2)`, a tick
reading `r` while no key is held (`last_keycode = 0`, in particular `Idle`)
reports exactly `[ShiftDown if s2, KeyDown k2]` and the new state is
`Held(k2, s2)`. -/
theorem press_from_idle (kb : Cardkb) (r k2 : Nat) (s2 : Bool)
    (h0 : kb.last_keycode = 0) (hm : KeymapEntry.mk r k2 s2 ∈ cardkb_keymap) :
    events (cardkb_poll kb (r : Int)).2 = (if s2 then [ShiftDown] else []) ++ [KeyDown k2] ∧
    (cardkb_poll kb (r : Int)).1 = Held k2 s2 := by
  refine ⟨?_, state_entry kb _ hm⟩
  have hev := events_entry kb _ hm
  have hc : ¬ (kb.last_keycode ≠ 0 ∧ (kb.last_keycode ≠ k2 ∨ kb.last_shift ≠ s2)) := by
    simp [h0]
  rw [if_neg hc] at hev
  exact hev

/-- Witness for C4: from `Idle`, the byte `0x41` (`(KEY_A, true)`). -/
theorem press_from_idle_witness :
    Idle.last_keycode = 0 ∧ KeymapEntry.mk 0x41 KEY_A true ∈ cardkb_keymap ∧
    (events (cardkb_poll Idle ((0x41 : Nat) : Int)).2 =
      (if true then [ShiftDown] else []) ++ [KeyDown KEY_A] ∧
    (cardkb_poll Idle ((0x41 : Nat) : Int)).1 = Held KEY_A true) :=
  ⟨rfl, by decide, press_from_idle Idle 0x41 KEY_A true rfl (by decide)⟩

/-! ## C5: unknown code -/

/-- C5: for every state and every nonzero raw byte `r` with no row in
`cardkb_keymap`, the tick reading `r` reports no key event, issues no
`input_sync` (its only call is the rescheduling), and leaves `last_keycode` and
`last_shift` as they were. -/
theorem unknown_code_preserves_state (kb : Cardkb) (r : Nat) (hr : r ≠ 0)
    (hno : ∀ e ∈ cardkb_keymap, e.raw_code ≠ r) :
    events (cardkb_poll kb (r : Int)).2 = [] ∧
    Call.input_sync ∉ (cardkb_poll kb (r : Int)).2 ∧
    (cardkb_poll kb (r : Int)).2 = [Call.schedule_delayed_work POLL_INTERVAL_MS] ∧
    (cardkb_poll kb (r : Int)).1.last_keycode = kb.last_keycode ∧
    (cardkb_poll kb (r : Int)).1.last_shift = kb.last_shift := by
  have h := poll_unknown kb (r : Int) (Int.ofNat_nonneg r) (by exact_mod_cast hr)
    (fun e he hc => hno e he (by exact_mod_cast hc))
  rw [h]
  exact ⟨rfl, by simp, rfl, rfl, rfl⟩

/-- Witness for C5: byte `0x99` has no row; state `Held(KEY_A, false)`. -/
theorem unknown_code_preserves_state_witness :
    (0x99 : Nat) ≠ 0 ∧ (∀ e ∈ cardkb_keymap, e.raw_code ≠ 0x99) ∧
    (events (cardkb_poll (Held KEY_A false) ((0x99 : Nat) : Int)).2 = [] ∧
    Call.input_sync ∉ (cardkb_poll (Held KEY_A false) ((0x99 : Nat) : Int)).2 ∧
    (cardkb_poll (Held KEY_A false) ((0x99 : Nat) : Int)).2 =
      [Call.schedule_delayed_work POLL_INTERVAL_MS] ∧
    (cardkb_poll (Held KEY_A false) ((0x99 : Nat) : Int)).1.last_keycode =
      (Held KEY_A false).last_keycode ∧
    (cardkb_poll (Held KEY_A false) ((0x99 : Nat) : Int)).1.last_shift =
      (Held KEY_A false).last_shift) :=
  ⟨by decide, by decide,
    unknown_code_preserves_state (Held KEY_A false) 0x99 (by decide) (by decide)⟩

/-! ## C6: bracketing -/

/-- C6, refuted as stated: the run `[0x61, 0x61, 0x00]` from `Idle` ends in
`0x00`, yet its event stream holds two `KeyDown` and one `KeyUp`; and
`[0x41, 0x41, 0x00]` holds two `ShiftDown` and one `ShiftUp`. -/
theorem bracketing_fails_on_repeat :
    (events (cardkb_run Idle [0x61, 0x61, 0x00]).2).countP Call.isKeyDown = 2 ∧
    (events (cardkb_run Idle [0x61, 0x61, 0x00]).2).countP Call.isKeyUp = 1 ∧
    (events (cardkb_run Idle [0x41, 0x41, 0x00]).2).countP Call.isShiftDown = 2 ∧
    (events (cardkb_run Idle [0x41, 0x41, 0x00]).2).countP Call.isShiftUp = 1 := by
  decide

/-- C6, amended: starting from `Idle`, for every finite sequence of successfully
read raw bytes whose last byte is `0x00`, the event stream holds as many
`KeyDown` as `KeyUp` plus one per steady-repeat tick, and as many `ShiftDown`
as `ShiftUp` plus one per steady-repeat tick of a shifted pair; so when no tick
reads a byte mapped to the pair already held, `KeyDown` and `KeyUp` are equal
in number, and so are `ShiftDown` and `ShiftUp`. -/
theorem bracketing_up_to_repeats (vals : List Int) (hok : ∀ v ∈ vals, 0 ≤ v) :
    (events (cardkb_run Idle (vals ++ [0])).2).countP Call.isKeyDown =
      (events (cardkb_run Idle (vals ++ [0])).2).countP Call.isKeyUp +
        steadyTicks Idle (vals ++ [0]) ∧
    (events (cardkb_run Idle (vals ++ [0])).2).countP Call.isShiftDown =
      (events (cardkb_run Idle (vals ++ [0])).2).countP Call.isShiftUp +
        steadyShiftTicks Idle (vals ++ [0]) ∧
    (steadyTicks Idle (vals ++ [0]) = 0 →
      (events (cardkb_run Idle (vals ++ [0])).2).countP Call.isKeyDown =
        (events (cardkb_run Idle (vals ++ [0])).2).countP Call.isKeyUp ∧
      (events (cardkb_run Idle (vals ++ [0])).2).countP Call.isShiftDown =
        (events (cardkb_run Idle (vals ++ [0])).2).countP Call.isShiftUp) := by
  have hok2 : ∀ v ∈ vals ++ [0], (0 : Int) ≤ v := by
    intro v hv
    rcases List.mem_append.1 hv with h | h
    · exact hok v h
    · simp at h
      omega
  obtain ⟨c1, c2⟩ := run_counts (vals ++ [0]) hok2 Idle (by decide)
  have hlast : (cardkb_run Idle (vals ++ [0])).1.last_keycode = 0 := by
    rw [run_append vals [0] hok Idle]
    exact run_zero_last _
  have hle := steadyShift_le (vals ++ [0]) Idle
  have e1 := countP_events Call.isKeyDown
    (by intro c hc; cases c <;> simp_all [Call.isKeyDown, Call.isReport])
    (cardkb_run Idle (vals ++ [0])).2
  have e2 := countP_events Call.isKeyUp
    (by intro c hc; cases c <;> simp_all [Call.isKeyUp, Call.isReport])
    (cardkb_run Idle (vals ++ [0])).2
  have e3 := countP_events Call.isShiftDown
    (by intro c hc; cases c <;> simp_all [Call.isShiftDown, Call.isReport])
    (cardkb_run Idle (vals ++ [0])).2
  have e4 := countP_events Call.isShiftUp
    (by intro c hc; cases c <;> simp_all [Call.isShiftUp, Call.isReport])
    (cardkb_run Idle (vals ++ [0])).2
  rw [e1, e2, e3, e4]
  have h1 : heldCount (cardkb_run Idle (vals ++ [0])).1 = 0 := by simp [heldCount, hlast]
  have h2 : heldShiftCount (cardkb_run Idle (vals ++ [0])).1 = 0 := by
    simp [heldShiftCount, hlast]
  have h3 : heldCount Idle = 0 := rfl
  have h4 : heldShiftCount Idle = 0 := rfl
  rw [h1, h3] at c1
  rw [h2, h4] at c2
  refine ⟨by omega, by omega, fun h0 => ⟨by omega, by omega⟩⟩

/-- Witness for C6 (amended) at the byte sequence `[0x61, 0x41, 0x62]` followed
by `0x00`, which has no steady-repeat tick. -/
theorem bracketing_up_to_repeats_witness :
    (∀ v ∈ ([0x61, 0x41, 0x62] : List Int), 0 ≤ v) ∧
    steadyTicks Idle ([0x61, 0x41, 0x62] ++ [0]) = 0 ∧
    ((events (cardkb_run Idle ([0x61, 0x41, 0x62] ++ [0])).2).countP Call.isKeyDown =
      (events (cardkb_run Idle ([0x61, 0x41, 0x62] ++ [0])).2).countP Call.isKeyUp ∧
    (events (cardkb_run Idle ([0x61, 0x41, 0x62] ++ [0])).2).countP Call.isShiftDown =
      (events (cardkb_run Idle ([0x61, 0x41, 0x62] ++ [0])).2).countP Call.isShiftUp) ∧
    (events (cardkb_run Idle ([0x61, 0x41, 0x62] ++ [0])).2).countP Call.isKeyDown = 3 :=
  ⟨by decide, by decide,
    (bracketing_up_to_repeats [0x61, 0x41, 0x62] (by decide)).2.2 (by decide), by decide⟩

/-! ## C7: no double press -/

/-- C7, refuted as stated: in the run `[0x61, 0x61]` from `Idle` the sink
receives two press calls for `KEY_A` with no release of `KEY_A` in between
(its reports for `KEY_A` are `1, 1`). -/
theorem double_press_on_repeat :
    reportsOf KEY_A (cardkb_run Idle [0x61, 0x61]).2 = [1, 1] ∧
    ¬ NoRepeatOf 1 (cardkb_run Idle [0x61, 0x61]).2 := by
  have hr : reportsOf KEY_A (cardkb_run Idle [0x61, 0x61]).2 = [1, 1] := by decide
  refine ⟨hr, fun h => ?_⟩
  have hA := h KEY_A
  rw [hr, List.chain'_cons] at hA
  exact hA.1 ⟨rfl, rfl⟩

/-- C7, amended: starting from `Idle`, for every finite sequence of poll
results, the calls to the sink never hold two release calls (value 0) for the
same key, ordinary or shift, without a press of that key in between; and
whenever they hold two press calls (value 1) for the same key without a release
of that key in between, the later of the two is made by a steady-repeat tick
(a tick that reads a byte mapped to the pair already held), so every other
press is preceded by a release of its key or is the first report for it; in
particular a run with no steady-repeat tick has no double press. -/
theorem no_double_release_and_press (vals : List Int) :
    NoRepeatOf 0 (cardkb_run Idle vals).2 ∧
    (cardkb_run_tagged Idle vals).map Prod.fst = (cardkb_run Idle vals).2 ∧
    RepeatedPressIsSteady (cardkb_run_tagged Idle vals) ∧
    (steadyTicks Idle vals = 0 → NoRepeatOf 1 (cardkb_run Idle vals).2) :=
  ⟨fun k => (run_release_chain vals Idle (by decide) k).1,
    run_tagged_fst vals Idle,
    fun k => (run_tagged_chain vals Idle (by decide) k).1,
    fun hst k => (run_press_chain vals Idle (by decide) hst k).1⟩

/-- Witness for C7 (amended): in the run `[0x61, 0x61, 0x00, 0x62, 0x42]` the
reports for `KEY_A` are press, press from a steady-repeat tick, release; and
the run `[0x61, 0x41, 0x99, -5, 0x62]` has no steady-repeat tick. -/
theorem no_double_release_and_press_witness :
    taggedReportsOf KEY_A (cardkb_run_tagged Idle [0x61, 0x61, 0x00, 0x62, 0x42]) =
      [(1, false), (1, true), (0, false)] ∧
    taggedReportsOf KEY_B (cardkb_run_tagged Idle [0x61, 0x61, 0x00, 0x62, 0x42]) =
      [(1, false), (0, false), (1, false)] ∧
    RepeatedPressIsSteady (cardkb_run_tagged Idle [0x61, 0x61, 0x00, 0x62, 0x42]) ∧
    NoRepeatOf 0 (cardkb_run Idle [0x61, 0x61, 0x00, 0x62, 0x42]).2 ∧
    steadyTicks Idle [0x61, 0x41, 0x99, -5, 0x62] = 0 ∧
    NoRepeatOf 1 (cardkb_run Idle [0x61, 0x41, 0x99, -5, 0x62]).2 :=
  ⟨by decide, by decide,
    (no_double_release_and_press [0x61, 0x61, 0x00, 0x62, 0x42]).2.2.1,
    (no_double_release_and_press [0x61, 0x61, 0x00, 0x62, 0x42]).1, by decide,
    (no_double_release_and_press [0x61, 0x41, 0x99, -5, 0x62]).2.2.2 (by decide)⟩

/-! ## C8: at most one key down -/

/-- C8: with the consumer modelled as the set of non-shift keys currently down
(`keys_run`, empty at start, translator `Idle`), for every finite sequence of
poll results and after every prefix of the resulting stream of calls (the
first `n` calls, for every `n`, so also in the middle of a tick) that set has
at most one element; and the held state never records more than one key. -/
theorem at_most_one_key_down (vals : List Int) (n : Nat) :
    (keys_run ∅ ((cardkb_run Idle vals).2.take n)).card ≤ 1 ∧
    (heldKeys (cardkb_run Idle vals).1).card ≤ 1 := by
  constructor
  · have h := keys_run_eq ((cardkb_run Idle vals).2.take n) ∅
    rw [Finset.erase_empty] at h
    rw [h]
    apply card_erase_shift_le_one
    exact run_trace vals Idle _ (sink_run_take_mem _ _ n)
  · unfold heldKeys
    split <;> simp

/-! ## C9: no stuck key or modifier -/

/-- C9: with the consumer modelled as the set of keys currently down, shift
included (`sink_run`, empty at start, translator `Idle`), after every completed
poll tick (the run over `vals`, and over each of its first `n` results) that
set is exactly what the held state prescribes: empty when no key is held,
`{k}` for `Held(k, false)`, `{k, KEY_LEFTSHIFT}` for `Held(k, true)`; and after
a tick that successfully reads `0x00` the set is empty. -/
theorem no_stuck_key (vals : List Int) :
    sink_run ∅ (cardkb_run Idle vals).2 = downSet (cardkb_run Idle vals).1 ∧
    (∀ n, sink_run ∅ (cardkb_run Idle (vals.take n)).2 =
      downSet (cardkb_run Idle (vals.take n)).1) ∧
    ((∀ v ∈ vals, 0 ≤ v) → sink_run ∅ (cardkb_run Idle (vals ++ [0])).2 = ∅) := by
  refine ⟨run_sink vals Idle, fun n => run_sink (vals.take n) Idle, fun hok => ?_⟩
  have h := run_sink (vals ++ [0]) Idle
  have hlast : (cardkb_run Idle (vals ++ [0])).1.last_keycode = 0 := by
    rw [run_append vals [0] hok Idle]
    exact run_zero_last _
  have hd : downSet Idle = ∅ := rfl
  rw [hd] at h
  rw [h]
  simp [downSet, hlast]

/-- Witness for C9 at the successful reads `[0x41, 0x62, 0x62, 0x99]`: the run
ends in `Held(KEY_B, false)` with exactly `KEY_B` down, and one more tick
reading `0x00` leaves nothing down. -/
theorem no_stuck_key_witness :
    (∀ v ∈ ([0x41, 0x62, 0x62, 0x99] : List Int), 0 ≤ v) ∧
    (cardkb_run Idle [0x41, 0x62, 0x62, 0x99]).1 = Held KEY_B false ∧
    sink_run ∅ (cardkb_run Idle [0x41, 0x62, 0x62, 0x99]).2 =
      downSet (cardkb_run Idle [0x41, 0x62, 0x62, 0x99]).1 ∧
    sink_run ∅ (cardkb_run Idle ([0x41, 0x62, 0x62, 0x99] ++ [0])).2 = ∅ :=
  ⟨by decide, by decide, (no_stuck_key [0x41, 0x62, 0x62, 0x99]).1,
    (no_stuck_key [0x41, 0x62, 0x62, 0x99]).2.2 (by decide)⟩

/-! ## C10: ordering inside one tick -/

/-- C10: for every held state whose key is not the shift key itself (no row of
the table has `KEY_LEFTSHIFT` as keycode) and every read result, in the event
list of one tick every `ShiftDown` is immediately followed by a `KeyDown` (and
is never last), every `ShiftUp` is immediately followed by a `KeyUp` (and is
never last), and no `KeyUp` or `ShiftUp` comes after a `KeyDown` or
`ShiftDown`. -/
theorem tick_ordering (kb : Cardkb) (val : Int) (hwf : kb.last_keycode ≠ KEY_LEFTSHIFT) :
    List.Chain' (fun a b => a = ShiftDown → b.isKeyDown = true)
      (events (cardkb_poll kb val).2) ∧
    (events (cardkb_poll kb val).2).getLast? ≠ some ShiftDown ∧
    List.Chain' (fun a b => a = ShiftUp → b.isKeyUp = true)
      (events (cardkb_poll kb val).2) ∧
    (events (cardkb_poll kb val).2).getLast? ≠ some ShiftUp ∧
    List.Pairwise (fun a b => (a.isKeyDown = true ∨ a.isShiftDown = true) →
      ¬ (b.isKeyUp = true ∨ b.isShiftUp = true)) (events (cardkb_poll kb val).2) := by
  have hwfb : ¬ (KEY_LEFTSHIFT = kb.last_keycode) := fun hc => hwf hc.symm
  by_cases h : 0 ≤ val
  · rcases poll_cases kb val h with ⟨_, hp⟩ | ⟨_, hk, _, hp⟩ | ⟨e, he, _, _, hp⟩
    · rw [hp]
      simp [events, Call.isReport]
    · rw [hp]
      cases hsh : kb.last_shift <;>
        simp [events, Call.isReport, release_calls, hsh, ShiftDown, ShiftUp, Call.isKeyDown,
          Call.isKeyUp, Call.isShiftDown, Call.isShiftUp, hwf, hwfb]
    · obtain ⟨_, he0, he42⟩ := keymap_entry_facts e he
      have he42b : ¬ (KEY_LEFTSHIFT = e.keycode) := fun hc => he42 hc.symm
      rw [hp]
      by_cases hguard : kb.last_keycode ≠ 0 ∧
          (kb.last_keycode ≠ e.keycode ∨ kb.last_shift ≠ e.shift)
      · simp only [cardkb_poll_hit, if_pos hguard]
        cases hes : e.shift <;> cases hsh : kb.last_shift <;>
          simp [events, Call.isReport, release_calls, hsh, hes, ShiftDown, ShiftUp,
            Call.isKeyDown, Call.isKeyUp, Call.isShiftDown, Call.isShiftUp, hwf, hwfb, he42,
            he42b]
      · simp only [cardkb_poll_hit, if_neg hguard]
        cases hes : e.shift <;>
          simp [events, Call.isReport, hes, ShiftDown, ShiftUp,
            Call.isKeyDown, Call.isKeyUp, Call.isShiftDown, Call.isShiftUp, he42, he42b]
  · rw [poll_error kb val (not_le.1 h)]
    simp [events]

/-- Witness for C10: the switch from `Held(KEY_A, true)` on byte `0x42`
(`(KEY_B, true)`), whose events are `ShiftUp, KeyUp KEY_A, ShiftDown, KeyDown KEY_B`. -/
theorem tick_ordering_witness :
    (Held KEY_A true).last_keycode ≠ KEY_LEFTSHIFT ∧
    events (cardkb_poll (Held KEY_A true) 0x42).2 =
      [ShiftUp, KeyUp KEY_A, ShiftDown, KeyDown KEY_B] ∧
    (List.Chain' (fun a b => a = ShiftDown → b.isKeyDown = true)
      (events (cardkb_poll (Held KEY_A true) 0x42).2) ∧
    (events (cardkb_poll (Held KEY_A true) 0x42).2).getLast? ≠ some ShiftDown ∧
    List.Chain' (fun a b => a = ShiftUp → b.isKeyUp = true)
      (events (cardkb_poll (Held KEY_A true) 0x42).2) ∧
    (events (cardkb_poll (Held KEY_A true) 0x42).2).getLast? ≠ some ShiftUp ∧
    List.Pairwise (fun a b => (a.isKeyDown = true ∨ a.isShiftDown = true) →
      ¬ (b.isKeyUp = true ∨ b.isShiftUp = true))
      (events (cardkb_poll (Held KEY_A true) 0x42).2)) :=
  ⟨by decide, by decide, tick_ordering (Held KEY_A true) 0x42 (by decide)⟩

/-! ## C11: sync barrier -/

/-- C11: for every held state and every read result, a tick that reports at
least one key event calls `input_sync` exactly once and no key report comes
after it; a tick that reports no key event does not call `input_sync` at all. -/
theorem sync_barrier (kb : Cardkb) (val : Int) :
    (events (cardkb_poll kb val).2 ≠ [] →
      (cardkb_poll kb val).2.count Call.input_sync = 1 ∧
      List.Pairwise (fun a b => a = Call.input_sync → b.isReport = false)
        (cardkb_poll kb val).2) ∧
    (events (cardkb_poll kb val).2 = [] → Call.input_sync ∉ (cardkb_poll kb val).2) := by
  by_cases h : 0 ≤ val
  · rcases poll_cases kb val h with ⟨_, hp⟩ | ⟨_, hk, _, hp⟩ | ⟨e, he, _, _, hp⟩
    · rw [hp]
      simp [events, Call.isReport]
    · rw [hp]
      cases hsh : kb.last_shift <;>
        simp [events, Call.isReport, release_calls, hsh]
    · rw [hp]
      by_cases hguard : kb.last_keycode ≠ 0 ∧
          (kb.last_keycode ≠ e.keycode ∨ kb.last_shift ≠ e.shift)
      · simp only [cardkb_poll_hit, if_pos hguard]
        cases hes : e.shift <;> cases hsh : kb.last_shift <;>
          simp [events, Call.isReport, release_calls, hsh, hes]
      · simp only [cardkb_poll_hit, if_neg hguard]
        cases hes : e.shift <;> simp [events, Call.isReport, hes]
  · rw [poll_error kb val (not_le.1 h)]
    simp [events]

/-- Witness for C11: the switch from `Held(KEY_A, true)` on byte `0x62` reports
three key events and syncs once; byte `0x99` from the same state reports
nothing and does not sync. -/
theorem sync_barrier_witness :
    events (cardkb_poll (Held KEY_A true) 0x62).2 ≠ [] ∧
    ((cardkb_poll (Held KEY_A true) 0x62).2.count Call.input_sync = 1 ∧
      List.Pairwise (fun a b => a = Call.input_sync → b.isReport = false)
        (cardkb_poll (Held KEY_A true) 0x62).2) ∧
    events (cardkb_poll (Held KEY_A true) 0x99).2 = [] ∧
    Call.input_sync ∉ (cardkb_poll (Held KEY_A true) 0x99).2 :=
  ⟨by decide, (sync_barrier (Held KEY_A true) 0x62).1 (by decide), by decide,
    (sync_barrier (Held KEY_A true) 0x99).2 (by decide)⟩

/-! ## C12: rescheduling -/

/-- A tick with a successful read ends with exactly one
`schedule_delayed_work(POLL_INTERVAL_MS)`; a tick with a failed read makes no
call at all. -/
theorem reschedule_cases (kb : Cardkb) (val : Int) :
    (0 ≤ val →
      (cardkb_poll kb val).2.getLast? = some (Call.schedule_delayed_work POLL_INTERVAL_MS) ∧
      (cardkb_poll kb val).2.count (Call.schedule_delayed_work POLL_INTERVAL_MS) = 1) ∧
    (val < 0 → ∀ ms, Call.schedule_delayed_work ms ∉ (cardkb_poll kb val).2) := by
  constructor
  · intro h
    rcases poll_cases kb val h with ⟨_, hp⟩ | ⟨_, hk, _, hp⟩ | ⟨e, he, _, _, hp⟩
    · rw [hp]
      simp
    · rw [hp]
      cases hsh : kb.last_shift <;> simp [release_calls, hsh]
    · rw [hp]
      by_cases hguard : kb.last_keycode ≠ 0 ∧
          (kb.last_keycode ≠ e.keycode ∨ kb.last_shift ≠ e.shift)
      · simp only [cardkb_poll_hit, if_pos hguard]
        cases hes : e.shift <;> cases hsh : kb.last_shift <;> simp [release_calls, hsh, hes]
      · simp only [cardkb_poll_hit, if_neg hguard]
        cases hes : e.shift <;> simp [hes]
  · intro h ms
    rw [poll_error kb val h]
    simp

/-- C12, the code at the failing input: a tick whose read returns the error
`-5` (`-EIO`) while `(KEY_A, false)` is held makes no call at all, so it does
not re-arm the delayed work; the next read results are never consumed (the run
`[0x61, -5, 0x00]` stops after the failed read with `KEY_A` still held and
reported down), whereas a tick with a successful read does re-arm it. -/
theorem failed_read_not_rescheduled :
    cardkb_poll (Held KEY_A false) (-5) = (Held KEY_A false, []) ∧
    Call.schedule_delayed_work POLL_INTERVAL_MS ∉ (cardkb_poll (Held KEY_A false) (-5)).2 ∧
    cardkb_run Idle [0x61, -5, 0x00] = cardkb_run Idle [0x61] ∧
    (cardkb_run Idle [0x61, -5, 0x00]).1 = Held KEY_A false ∧
    Call.schedule_delayed_work POLL_INTERVAL_MS ∈ (cardkb_poll (Held KEY_A false) 0x00).2 := by
  decide

/-! ## C13: transport failure -/

/-- C13: for every held state, a tick whose read returns an error (`val < 0`)
reports no key event, issues no `input_sync` (it makes no call at all) and
leaves `last_keycode` and `last_shift` unchanged. -/
theorem transport_failure_atomic (kb : Cardkb) (val : Int) (h : val < 0) :
    events (cardkb_poll kb val).2 = [] ∧
    Call.input_sync ∉ (cardkb_poll kb val).2 ∧
    (cardkb_poll kb val).1.last_keycode = kb.last_keycode ∧
    (cardkb_poll kb val).1.last_shift = kb.last_shift := by
  rw [poll_error kb val h]
  exact ⟨rfl, by simp, rfl, rfl⟩

/-- Witness for C13: error `-5` while `Held(KEY_A, true)`. -/
theorem transport_failure_atomic_witness :
    (-5 : Int) < 0 ∧
    (events (cardkb_poll (Held KEY_A true) (-5)).2 = [] ∧
    Call.input_sync ∉ (cardkb_poll (Held KEY_A true) (-5)).2 ∧
    (cardkb_poll (Held KEY_A true) (-5)).1.last_keycode = (Held KEY_A true).last_keycode ∧
    (cardkb_poll (Held KEY_A true) (-5)).1.last_shift = (Held KEY_A true).last_shift) :=
  ⟨by decide, transport_failure_atomic (Held KEY_A true) (-5) (by decide)⟩

/-! ## C14: keymap well-formedness -/

/-- C14: in `cardkb_keymap` no two rows have the same `raw_code`, and no row
has `raw_code` `0x00`. -/
theorem keymap_well_formed :
    (cardkb_keymap.map KeymapEntry.raw_code).Nodup ∧
    List.Pairwise (fun a b => a.raw_code ≠ b.raw_code) cardkb_keymap ∧
    ∀ e ∈ cardkb_keymap, e.raw_code ≠ 0 := by
  refine ⟨keymap_raw_nodup, ?_, fun e he => (keymap_entry_facts e he).1⟩
  have h := keymap_raw_nodup
  rw [List.Nodup, List.pairwise_map] at h
  exact h

/-! ## Table search and the dense array -/

/-- The loop of `cardkb_poll` is the table search followed by the loop body. -/
theorem scan_eq_lookup (kb : Cardkb) (val : Int) (t : List KeymapEntry) :
    cardkb_poll_scan kb val t =
      match scan_lookup val t with
      | none => (kb, [])
      | some p => cardkb_poll_hit kb (KeymapEntry.mk 0 p.1 p.2) := by
  induction t with
  | nil => rfl
  | cons a t ih =>
    by_cases ha : (a.raw_code : Int) = val
    · simp only [cardkb_poll_scan, scan_lookup, if_pos ha]
      rfl
    · simp only [cardkb_poll_scan, scan_lookup, if_neg ha]
      exact ih

theorem scan_lookup_none (val : Int) (t : List KeymapEntry)
    (h : ∀ e ∈ t, (e.raw_code : Int) ≠ val) : scan_lookup val t = none := by
  induction t with
  | nil => rfl
  | cons a t ih =>
    simp only [scan_lookup, if_neg (h a (List.mem_cons_self a t))]
    exact ih (fun e he => h e (List.mem_cons_of_mem a he))

/-- With distinct raw codes, the search finds `p` exactly when some row with the
raw code searched for carries `p`. -/
theorem scan_lookup_some_iff (val : Int) (t : List KeymapEntry)
    (hnd : (t.map KeymapEntry.raw_code).Nodup) (p : Nat × Bool) :
    scan_lookup val t = some p ↔
      ∃ e ∈ t, (e.raw_code : Int) = val ∧ (e.keycode, e.shift) = p := by
  induction t with
  | nil => simp [scan_lookup]
  | cons a t ih =>
    rw [List.map_cons, List.nodup_cons] at hnd
    by_cases ha : (a.raw_code : Int) = val
    · simp only [scan_lookup, if_pos ha, Option.some.injEq]
      constructor
      · intro h
        exact ⟨a, List.mem_cons_self a t, ha, h⟩
      · rintro ⟨e, he, hr, hp⟩
        rcases List.mem_cons.1 he with rfl | h
        · exact hp
        · exfalso
          apply hnd.1
          have : e.raw_code = a.raw_code := by
            have := hr.trans ha.symm
            exact_mod_cast this
          rw [← this]
          exact List.mem_map_of_mem KeymapEntry.raw_code h
    · simp only [scan_lookup, if_neg ha]
      rw [ih hnd.2]
      constructor
      · rintro ⟨e, he, h⟩
        exact ⟨e, List.mem_cons_of_mem a he, h⟩
      · rintro ⟨e, he, hr, hp⟩
        rcases List.mem_cons.1 he with rfl | h
        · exact absurd hr ha
        · exact ⟨e, h, hr, hp⟩

theorem dense_fill_length (t : List KeymapEntry) (arr : List (Option (Nat × Bool))) :
    (dense_fill arr t).length = arr.length := by
  induction t generalizing arr with
  | nil => rfl
  | cons a t ih => simp [dense_fill, ih]

/-- With distinct raw codes, a slot of the filled array holds what the search
finds, or what it held before when the search finds nothing. -/
theorem dense_fill_get (t : List KeymapEntry) (hnd : (t.map KeymapEntry.raw_code).Nodup)
    (arr : List (Option (Nat × Bool))) (r : Nat) (hr : r < arr.length) :
    (dense_fill arr t)[r]? =
      match scan_lookup (r : Int) t with
      | some p => some (some p)
      | none => arr[r]? := by
  induction t generalizing arr with
  | nil => rfl
  | cons a t ih =>
    rw [List.map_cons, List.nodup_cons] at hnd
    simp only [dense_fill]
    rw [ih hnd.2 _ (by simpa using hr)]
    by_cases ha : a.raw_code = r
    · have hnone : scan_lookup (r : Int) t = none := by
        apply scan_lookup_none
        intro e he hc
        apply hnd.1
        have : e.raw_code = a.raw_code := by
          rw [ha]
          exact_mod_cast hc
        rw [← this]
        exact List.mem_map_of_mem KeymapEntry.raw_code he
      have ha2 : (a.raw_code : Int) = (r : Int) := by exact_mod_cast ha
      simp only [hnone, scan_lookup, if_pos ha2]
      rw [ha, List.getElem?_set_self hr]
    · have ha2 : ¬ ((a.raw_code : Int) = (r : Int)) := fun hc => ha (by exact_mod_cast hc)
      simp only [scan_lookup, if_neg ha2]
      rw [List.getElem?_set_ne ha]

/-! ## C15: linear scan equals dense lookup -/

/-- C15: the loop of `cardkb_poll` is the first-match search `scan_lookup`
followed by the loop body; for every byte value `r` in `0..255` that search over
`cardkb_keymap` returns the same result (no row, or the same
`(keycode, shift)`) as the dense 256-entry array built from the table and
indexed by `r`; the search returns `(k, s)` exactly when the row `(r, k, s)` is
in the table, and it returns the same result on every reordering of the
table. -/
theorem scan_equals_dense :
    (∀ (kb : Cardkb) (val : Int), cardkb_poll_scan kb val cardkb_keymap =
      match scan_lookup val cardkb_keymap with
      | none => (kb, [])
      | some p => cardkb_poll_hit kb (KeymapEntry.mk 0 p.1 p.2)) ∧
    (∀ r : Nat, r < 256 → scan_lookup (r : Int) cardkb_keymap = dense_lookup r) ∧
    (∀ (r k : Nat) (s : Bool), scan_lookup (r : Int) cardkb_keymap = some (k, s) ↔
      KeymapEntry.mk r k s ∈ cardkb_keymap) ∧
    (∀ t : List KeymapEntry, t.Perm cardkb_keymap →
      ∀ val : Int, scan_lookup val t = scan_lookup val cardkb_keymap) := by
  refine ⟨fun kb val => scan_eq_lookup kb val cardkb_keymap, ?_, ?_, ?_⟩
  · intro r hr
    have h := dense_fill_get cardkb_keymap keymap_raw_nodup (List.replicate 256 none) r
      (by rw [List.length_replicate]; exact hr)
    unfold dense_lookup dense_keymap
    rw [List.getD_eq_getElem?_getD, h]
    cases hl : scan_lookup (r : Int) cardkb_keymap with
    | none =>
      show none = ((List.replicate 256 (none : Option (Nat × Bool)))[r]?).getD none
      rw [List.getElem?_replicate_of_lt hr]
      rfl
    | some p => rfl
  · intro r k s
    rw [scan_lookup_some_iff _ _ keymap_raw_nodup]
    constructor
    · rintro ⟨e, he, hr, hp⟩
      have h1 : e.raw_code = r := by exact_mod_cast hr
      have h2 : e.keycode = k := congrArg Prod.fst hp
      have h3 : e.shift = s := congrArg Prod.snd hp
      have : e = KeymapEntry.mk r k s := by
        cases e
        simp_all
      rw [← this]
      exact he
    · intro h
      exact ⟨_, h, rfl, rfl⟩
  · intro t hperm val
    have hnd : (t.map KeymapEntry.raw_code).Nodup :=
      ((hperm.map KeymapEntry.raw_code).nodup_iff).2 keymap_raw_nodup
    cases hl : scan_lookup val cardkb_keymap with
    | none =>
      apply scan_lookup_none
      intro e he hc
      have hsome := (scan_lookup_some_iff val cardkb_keymap keymap_raw_nodup
        (e.keycode, e.shift)).2 ⟨e, hperm.mem_iff.1 he, hc, rfl⟩
      rw [hl] at hsome
      cases hsome
    | some p =>
      obtain ⟨e, he, hr, hp⟩ := (scan_lookup_some_iff val cardkb_keymap keymap_raw_nodup p).1 hl
      exact (scan_lookup_some_iff val t hnd p).2 ⟨e, hperm.mem_iff.2 he, hr, hp⟩

/-- Witness for C15 at the bytes `0x41` (`(KEY_A, true)`) and `0x99` (no row),
and at the table reversed. -/
theorem scan_equals_dense_witness :
    (0x41 : Nat) < 256 ∧ scan_lookup ((0x41 : Nat) : Int) cardkb_keymap = dense_lookup 0x41 ∧
    dense_lookup 0x41 = some (KEY_A, true) ∧
    scan_lookup ((0x99 : Nat) : Int) cardkb_keymap = dense_lookup 0x99 ∧
    dense_lookup 0x99 = none ∧
    cardkb_keymap.reverse.Perm cardkb_keymap ∧
    scan_lookup 0x41 cardkb_keymap.reverse = scan_lookup 0x41 cardkb_keymap :=
  ⟨by decide, scan_equals_dense.2.1 0x41 (by decide), by decide,
    scan_equals_dense.2.1 0x99 (by decide), by decide, List.reverse_perm cardkb_keymap,
    scan_equals_dense.2.2.2 cardkb_keymap.reverse (List.reverse_perm cardkb_keymap) 0x41⟩

/-! ## C16: press-release round trip -/

/-- C16: starting from `Idle`, for every raw byte `r` that the keymap maps to
`(k, s)`, the two ticks reading `r` then `0x00` report exactly
`[ShiftDown if s, KeyDown k, ShiftUp if s, KeyUp k]` and end in `Idle`; with
the actual table, `[0x41, 0x00]` reports exactly
`[ShiftDown, KeyDown KEY_A, ShiftUp, KeyUp KEY_A]`. -/
theorem press_release_round_trip (r k : Nat) (s : Bool)
    (hm : KeymapEntry.mk r k s ∈ cardkb_keymap) :
    events (cardkb_run Idle [(r : Int), 0x00]).2 =
      (if s then [ShiftDown] else []) ++ [KeyDown k] ++
        ((if s then [ShiftUp] else []) ++ [KeyUp k]) ∧
    (cardkb_run Idle [(r : Int), 0x00]).1 = Idle ∧
    events (cardkb_run Idle [0x41, 0x00]).2 =
      [ShiftDown, KeyDown KEY_A, ShiftUp, KeyUp KEY_A] := by
  have hk0 : (Held k s).last_keycode ≠ 0 := (keymap_entry_facts _ hm).2.1
  have hst := state_entry Idle _ hm
  have hev := events_entry Idle _ hm
  simp only at hst hev
  have hrun : cardkb_run Idle [(r : Int), 0x00] =
      (Idle, (cardkb_poll Idle (r : Int)).2 ++ (release_calls (Held k s) ++
        [Call.input_sync, Call.schedule_delayed_work POLL_INTERVAL_MS])) := by
    rw [run_cons_ok Idle _ _ (Int.ofNat_nonneg r), hst,
      run_cons_ok (Held k s) 0 [] (le_refl 0), poll_zero_held (Held k s) hk0]
    simp [cardkb_run]
  refine ⟨?_, by rw [hrun], by decide⟩
  rw [hrun, events_append, hev, events_append, events_release]
  have hc : ¬ (Idle.last_keycode ≠ 0 ∧ (Idle.last_keycode ≠ k ∨ Idle.last_shift ≠ s)) := by
    simp [Idle]
  rw [if_neg hc]
  cases s <;> rfl

/-- Witness for C16 at `r = 0x61`, `(k, s) = (KEY_A, false)`. -/
theorem press_release_round_trip_witness :
    KeymapEntry.mk 0x61 KEY_A false ∈ cardkb_keymap ∧
    (events (cardkb_run Idle [((0x61 : Nat) : Int), 0x00]).2 =
      (if false then [ShiftDown] else []) ++ [KeyDown KEY_A] ++
        ((if false then [ShiftUp] else []) ++ [KeyUp KEY_A]) ∧
    (cardkb_run Idle [((0x61 : Nat) : Int), 0x00]).1 = Idle ∧
    events (cardkb_run Idle [0x41, 0x00]).2 =
      [ShiftDown, KeyDown KEY_A, ShiftUp, KeyUp KEY_A]) :=
  ⟨by decide, press_release_round_trip 0x61 KEY_A false (by decide)⟩

/-! ## The held-state encoding -/

theorem encoded_poll (kb : Cardkb) (val : Int) (h : Encoded kb) :
    Encoded (cardkb_poll kb val).1 := by
  by_cases hv : 0 ≤ val
  · rcases poll_cases kb val hv with ⟨_, hp⟩ | ⟨_, _, _, hp⟩ | ⟨e, he, _, _, hp⟩
    · rw [hp]
      exact h
    · rw [hp]
      exact Or.inl ⟨rfl, rfl⟩
    · rw [hp]
      exact Or.inr ⟨e, he, rfl, rfl⟩
  · rw [poll_error kb val (not_le.1 hv)]
    exact h

theorem encoded_run (vals : List Int) (kb : Cardkb) (h : Encoded kb) :
    Encoded (cardkb_run kb vals).1 := by
  induction vals generalizing kb with
  | nil => exact h
  | cons v vs ih =>
    by_cases hv : 0 ≤ v
    · rw [run_cons_ok kb v vs hv]
      exact ih _ (encoded_poll kb v h)
    · rw [run_cons_error kb v vs (not_le.1 hv)]
      exact h

/-! ## C18: held-state encoding invariant -/

/-- C18: every keycode in `cardkb_keymap` is nonzero, so `last_keycode = 0`
encodes `Idle` without ambiguity; the state written by `cardkb_probe` is
encoded, every poll tick keeps a state encoded, and so every state reached
from the probe state by a sequence of poll ticks has either
`last_keycode = 0` and `last_shift = false`, or the `(keycode, shift)` of some
row of the table. -/
theorem held_state_encoding :
    (∀ e ∈ cardkb_keymap, e.keycode ≠ 0) ∧
    Encoded cardkb_probe_state ∧
    (∀ (kb : Cardkb) (val : Int), Encoded kb → Encoded (cardkb_poll kb val).1) ∧
    (∀ vals : List Int,
      ((cardkb_run cardkb_probe_state vals).1.last_keycode = 0 ∧
        (cardkb_run cardkb_probe_state vals).1.last_shift = false) ∨
      ∃ e ∈ cardkb_keymap,
        (cardkb_run cardkb_probe_state vals).1.last_keycode = e.keycode ∧
        (cardkb_run cardkb_probe_state vals).1.last_shift = e.shift) :=
  ⟨fun e he => (keymap_entry_facts e he).2.1, Or.inl ⟨rfl, rfl⟩, encoded_poll,
    fun vals => encoded_run vals cardkb_probe_state (Or.inl ⟨rfl, rfl⟩)⟩

/-- Witness for C18: the encoded state `Held(KEY_A, true)` stays encoded on
byte `0x62`, and the run `[0x41, 0x99, -5, 0x62]` from the probe state ends in
`(KEY_A, true)`, the pair of the row `0x41`. -/
theorem held_state_encoding_witness :
    Encoded (Held KEY_A true) ∧
    Encoded (cardkb_poll (Held KEY_A true) 0x62).1 ∧
    (cardkb_run cardkb_probe_state [0x41, 0x99, -5, 0x62]).1 = Held KEY_A true ∧
    (((cardkb_run cardkb_probe_state [0x41, 0x99, -5, 0x62]).1.last_keycode = 0 ∧
        (cardkb_run cardkb_probe_state [0x41, 0x99, -5, 0x62]).1.last_shift = false) ∨
      ∃ e ∈ cardkb_keymap,
        (cardkb_run cardkb_probe_state [0x41, 0x99, -5, 0x62]).1.last_keycode = e.keycode ∧
        (cardkb_run cardkb_probe_state [0x41, 0x99, -5, 0x62]).1.last_shift = e.shift) :=
  ⟨Or.inr ⟨KeymapEntry.mk 0x41 KEY_A true, by decide, rfl, rfl⟩,
    held_state_encoding.2.2.1 (Held KEY_A true) 0x62
      (Or.inr ⟨KeymapEntry.mk 0x41 KEY_A true, by decide, rfl, rfl⟩),
    by decide, held_state_encoding.2.2.2 [0x41, 0x99, -5, 0x62]⟩

/-! ## The keys declared by the probe -/

theorem mem_keybit_loop (t : List KeymapEntry) (S : Finset Nat) (x : Nat) :
    x ∈ cardkb_probe_keybit_loop S t ↔
      x ∈ S ∨ (∃ e ∈ t, e.keycode = x) ∨ (x = KEY_LEFTSHIFT ∧ ∃ e ∈ t, e.shift = true) := by
  induction t generalizing S with
  | nil => simp [cardkb_probe_keybit_loop]
  | cons a t ih =>
    simp only [cardkb_probe_keybit_loop]
    rw [ih]
    cases hs : a.shift
    · simp only [Bool.false_eq_true, if_false, Finset.mem_insert, List.mem_cons,
        exists_eq_or_imp, hs, false_or]
      constructor
      · rintro ((h | h) | h | h)
        · exact Or.inr (Or.inl (Or.inl h.symm))
        · exact Or.inl h
        · exact Or.inr (Or.inl (Or.inr h))
        · exact Or.inr (Or.inr h)
      · rintro (h | (h | h) | h)
        · exact Or.inl (Or.inr h)
        · exact Or.inl (Or.inl h.symm)
        · exact Or.inr (Or.inl h)
        · exact Or.inr (Or.inr h)
    · simp only [if_true, Finset.mem_insert, List.mem_cons, exists_eq_or_imp, hs, true_or,
        and_true]
      constructor
      · rintro ((h | h | h) | h | h)
        · exact Or.inr (Or.inr h)
        · exact Or.inr (Or.inl (Or.inl h.symm))
        · exact Or.inl h
        · exact Or.inr (Or.inl (Or.inr h))
        · exact Or.inr (Or.inr h.1)
      · rintro (h | (h | h) | h)
        · exact Or.inl (Or.inr (Or.inr h))
        · exact Or.inl (Or.inr (Or.inl h.symm))
        · exact Or.inr (Or.inl h)
        · exact Or.inl (Or.inl h)

theorem mem_keybit (x : Nat) :
    x ∈ cardkb_probe_keybit ↔
      (∃ e ∈ cardkb_keymap, e.keycode = x) ∨
        (x = KEY_LEFTSHIFT ∧ ∃ e ∈ cardkb_keymap, e.shift = true) := by
  unfold cardkb_probe_keybit
  rw [mem_keybit_loop]
  simp

theorem entry_declared (e : KeymapEntry) (he : e ∈ cardkb_keymap) :
    e.keycode ∈ cardkb_probe_keybit ∧ (e.shift = true → KEY_LEFTSHIFT ∈ cardkb_probe_keybit) :=
  ⟨(mem_keybit _).2 (Or.inl ⟨e, he, rfl⟩),
    fun hs => (mem_keybit _).2 (Or.inr ⟨rfl, e, he, hs⟩)⟩

theorem encoded_declared (kb : Cardkb) (h : Encoded kb) (hk : kb.last_keycode ≠ 0) :
    kb.last_keycode ∈ cardkb_probe_keybit ∧
      (kb.last_shift = true → KEY_LEFTSHIFT ∈ cardkb_probe_keybit) := by
  rcases h with ⟨h0, _⟩ | ⟨e, he, h1, h2⟩
  · exact absurd h0 hk
  · rw [h1, h2]
    exact entry_declared e he

theorem release_declared (kb : Cardkb) (h : Encoded kb) (hk : kb.last_keycode ≠ 0)
    (c v : Nat) (hc : Call.input_report_key c v ∈ release_calls kb) :
    c ∈ cardkb_probe_keybit := by
  obtain ⟨d1, d2⟩ := encoded_declared kb h hk
  cases hsh : kb.last_shift
  · simp [release_calls, hsh] at hc
    rw [hc.1]
    exact d1
  · simp [release_calls, hsh] at hc
    rcases hc with ⟨h1, _⟩ | ⟨h1, _⟩
    · rw [h1]
      exact d2 hsh
    · rw [h1]
      exact d1

/-- Every key a tick reports from an encoded state was declared by the probe. -/
theorem tick_declared (kb : Cardkb) (h : Encoded kb) (val : Int) (c v : Nat)
    (hc : Call.input_report_key c v ∈ (cardkb_poll kb val).2) : c ∈ cardkb_probe_keybit := by
  by_cases hv : 0 ≤ val
  · rcases poll_cases kb val hv with ⟨_, hp⟩ | ⟨_, hk, _, hp⟩ | ⟨e, he, _, _, hp⟩
    · rw [hp] at hc
      simp at hc
    · rw [hp] at hc
      rcases List.mem_append.1 hc with h1 | h1
      · exact release_declared kb h hk c v h1
      · simp at h1
    · obtain ⟨d1, d2⟩ := entry_declared e he
      rw [hp] at hc
      simp only [cardkb_poll_hit, List.mem_append] at hc
      rcases hc with ((h1 | h1) | h1) | h1
      · split at h1
        · rename_i hg
          exact release_declared kb h hg.1 c v h1
        · cases h1
      · cases hes : e.shift
        · simp [hes] at h1
        · simp [hes] at h1
          rw [h1.1]
          exact d2 hes
      · simp at h1
        rw [h1.1]
        exact d1
      · simp at h1
  · rw [poll_error kb val (not_le.1 hv)] at hc
    cases hc

theorem run_declared (vals : List Int) (kb : Cardkb) (h : Encoded kb) (c v : Nat)
    (hc : Call.input_report_key c v ∈ (cardkb_run kb vals).2) : c ∈ cardkb_probe_keybit := by
  induction vals generalizing kb with
  | nil => cases hc
  | cons w ws ih =>
    by_cases hw : 0 ≤ w
    · rw [run_cons_ok kb w ws hw] at hc
      rcases List.mem_append.1 hc with h1 | h1
      · exact tick_declared kb h w c v h1
      · exact ih _ (encoded_poll kb w h) h1
    · rw [run_cons_error kb w ws (not_le.1 hw)] at hc
      cases hc

/-! ## C17: capability registration -/

/-- C17: the key set declared by `cardkb_probe` is exactly the set of keycodes
occurring in `cardkb_keymap`, plus `KEY_LEFTSHIFT` when at least one row
requires shift; and starting from `Idle`, for every finite sequence of poll
results, every key reported by `cardkb_poll` (`KEY_LEFTSHIFT` included) is in
that declared set. -/
theorem capability_registration :
    cardkb_probe_keybit =
      (cardkb_keymap.map KeymapEntry.keycode).toFinset ∪
        (if cardkb_keymap.any (fun e => e.shift) then {KEY_LEFTSHIFT} else ∅) ∧
    ∀ (vals : List Int) (c v : Nat),
      Call.input_report_key c v ∈ (cardkb_run Idle vals).2 → c ∈ cardkb_probe_keybit := by
  refine ⟨?_, fun vals c v hc => run_declared vals Idle (Or.inl ⟨rfl, rfl⟩) c v hc⟩
  ext x
  rw [mem_keybit, Finset.mem_union, List.mem_toFinset, List.mem_map]
  by_cases hany : cardkb_keymap.any (fun e => e.shift) = true
  · rw [if_pos hany, Finset.mem_singleton]
    have hex : ∃ e ∈ cardkb_keymap, e.shift = true := by
      simpa [List.any_eq_true] using hany
    constructor
    · rintro (h | h)
      · exact Or.inl h
      · exact Or.inr h.1
    · rintro (h | h)
      · exact Or.inl h
      · exact Or.inr ⟨h, hex⟩
  · rw [if_neg hany]
    have hex : ¬ ∃ e ∈ cardkb_keymap, e.shift = true := by
      simpa [List.any_eq_true] using hany
    constructor
    · rintro (h | h)
      · exact Or.inl h
      · exact absurd h.2 hex
    · rintro (h | h)
      · exact Or.inl h
      · simp at h

/-- Witness for C17: in the run `[0x41, 0x62]` the shift key is reported, and it
is in the declared set. -/
theorem capability_registration_witness :
    Call.input_report_key KEY_LEFTSHIFT 1 ∈ (cardkb_run Idle [0x41, 0x62]).2 ∧
    KEY_LEFTSHIFT ∈ cardkb_probe_keybit :=
  ⟨by decide, capability_registration.2 [0x41, 0x62] KEY_LEFTSHIFT 1 (by decide)⟩

/-! ## The next state depends on the byte only -/

theorem poll_not_effective (kb : Cardkb) (val : Int) (hv : 0 ≤ val)
    (h : isEffective val = false) : (cardkb_poll kb val).1 = kb := by
  simp only [isEffective, Bool.or_eq_false_iff, decide_eq_false_iff_not] at h
  obtain ⟨h0, hl⟩ := h
  have hnone : scan_lookup val cardkb_keymap = none := by
    cases hs : scan_lookup val cardkb_keymap with
    | none => rfl
    | some p => simp [hs] at hl
  rw [poll_ok kb val hv]
  simp only [cardkb_poll_body, if_neg h0]
  rw [scan_eq_lookup, hnone]

theorem poll_effective (kb : Cardkb) (hkb : kb.last_keycode = 0 → kb.last_shift = false)
    (val : Int) (h : isEffective val = true) : (cardkb_poll kb val).1 = stateAfter val := by
  by_cases h0 : val = 0
  · subst h0
    by_cases hk : kb.last_keycode = 0
    · rw [poll_zero_idle kb hk]
      have hs := hkb hk
      cases kb
      simp_all [stateAfter, Idle]
    · rw [poll_zero_held kb hk]
      rfl
  · simp only [isEffective, Bool.or_eq_true, decide_eq_true_eq, h0, false_or] at h
    cases hs : scan_lookup val cardkb_keymap with
    | none => simp [hs] at h
    | some p =>
      obtain ⟨e, he, hr, hp⟩ := (scan_lookup_some_iff val cardkb_keymap keymap_raw_nodup p).1 hs
      subst hr
      rw [state_entry kb e he]
      simp only [stateAfter, if_neg h0, hs]
      rw [← hp]

theorem stateAfter_encoded (val : Int) :
    (stateAfter val).last_keycode = 0 → (stateAfter val).last_shift = false := by
  unfold stateAfter
  split
  · intro _
    rfl
  · cases hs : scan_lookup val cardkb_keymap with
    | none =>
      intro _
      rfl
    | some p =>
      obtain ⟨e, he, _, hp⟩ := (scan_lookup_some_iff val cardkb_keymap keymap_raw_nodup p).1 hs
      intro hk
      exfalso
      apply (keymap_entry_facts e he).2.1
      rw [← hp] at hk
      exact hk

theorem run_last_effective (vals : List Int) (hok : ∀ v ∈ vals, 0 ≤ v) (kb : Cardkb)
    (hkb : kb.last_keycode = 0 → kb.last_shift = false) :
    (cardkb_run kb vals).1 =
      match lastEffective vals with
      | none => kb
      | some v => stateAfter v := by
  induction vals generalizing kb with
  | nil => rfl
  | cons v vs ih =>
    have hv : 0 ≤ v := hok v (List.mem_cons_self v vs)
    have hok2 : ∀ w ∈ vs, 0 ≤ w := fun w hw => hok w (List.mem_cons_of_mem v hw)
    rw [run_cons_ok kb v vs hv]
    by_cases he : isEffective v = true
    · have hp := poll_effective kb hkb v he
      rw [ih hok2 _ (by rw [hp]; exact stateAfter_encoded v), hp]
      simp only [lastEffective]
      cases lastEffective vs with
      | none => simp [he]
      | some w => rfl
    · have he2 : isEffective v = false := by simpa using he
      have hp := poll_not_effective kb v hv he2
      rw [hp, ih hok2 kb hkb]
      simp only [lastEffective]
      cases lastEffective vs with
      | none => simp [he2]
      | some w => rfl

/-! ## C19: the next held state is memoryless -/

/-- C19: for every prior state in the encoding of the held state (the shift
flag is clear when no key is held) and every read result that is `0x00` or
recognized by the keymap, the state after the tick does not depend on the prior
state: it is `Idle` for `0x00` and `Held(k, s)` for a byte that the keymap maps
to `(k, s)`; hence reading the same byte twice gives the same state as reading
it once, and the state after any sequence of successful reads is the one
decided by the last read result in it that is `0x00` or recognized (the
initial state if there is none). -/
theorem next_state_memoryless (kb : Cardkb)
    (hkb : kb.last_keycode = 0 → kb.last_shift = false) :
    (cardkb_poll kb 0).1 = Idle ∧
    (∀ (r k : Nat) (s : Bool), KeymapEntry.mk r k s ∈ cardkb_keymap →
      (cardkb_poll kb (r : Int)).1 = Held k s) ∧
    (∀ val : Int, isEffective val = true → (cardkb_poll kb val).1 = stateAfter val) ∧
    (∀ val : Int, isEffective val = true →
      (cardkb_poll (cardkb_poll kb val).1 val).1 = (cardkb_poll kb val).1) ∧
    (∀ vals : List Int, (∀ v ∈ vals, 0 ≤ v) →
      (cardkb_run kb vals).1 =
        match lastEffective vals with
        | none => kb
        | some v => stateAfter v) := by
  refine ⟨poll_effective kb hkb 0 rfl, fun r k s hm => state_entry kb _ hm,
    poll_effective kb hkb, fun val he => ?_, fun vals hok => run_last_effective vals hok kb hkb⟩
  have hp := poll_effective kb hkb val he
  rw [hp]
  exact poll_effective _ (stateAfter_encoded val) val he

/-- Witness for C19 at the prior state `Held(KEY_B, true)`: byte `0x61` leads
to `Held(KEY_A, false)`, and the run `[0x41, 0x61, 0x99, 0x99]` ends in the
state decided by `0x61`. -/
theorem next_state_memoryless_witness :
    ((Held KEY_B true).last_keycode = 0 → (Held KEY_B true).last_shift = false) ∧
    (cardkb_poll (Held KEY_B true) 0).1 = Idle ∧
    isEffective 0x61 = true ∧ stateAfter 0x61 = Held KEY_A false ∧
    (cardkb_poll (Held KEY_B true) 0x61).1 = stateAfter 0x61 ∧
    (∀ v ∈ ([0x41, 0x61, 0x99, 0x99] : List Int), 0 ≤ v) ∧
    lastEffective [0x41, 0x61, 0x99, 0x99] = some 0x61 ∧
    (cardkb_run (Held KEY_B true) [0x41, 0x61, 0x99, 0x99]).1 =
      match lastEffective [0x41, 0x61, 0x99, 0x99] with
      | none => Held KEY_B true
      | some v => stateAfter v :=
  ⟨by decide, (next_state_memoryless (Held KEY_B true) (by decide)).1, by decide, by decide,
    (next_state_memoryless (Held KEY_B true) (by decide)).2.2.1 0x61 (by decide), by decide,
    by decide,
    (next_state_memoryless (Held KEY_B true) (by decide)).2.2.2.2 [0x41, 0x61, 0x99, 0x99]
      (by decide)⟩

/-! ## C20: keymap injectivity -/

theorem keymap_pair_nodup :
    (cardkb_keymap.map (fun e => (e.keycode, e.shift))).Nodup := by decide

/-- C20: no two distinct raw codes of `cardkb_keymap` map to the same
`(keycode, shift)` pair; therefore, in the state reached by reading a
recognized byte `r1`, a tick reading a different recognized byte `r2` is never
a steady repeat: it reports the release of the old key and then the press of
the new key, and the new pair becomes the held one. -/
theorem keymap_injective_no_swallow :
    (cardkb_keymap.map (fun e => (e.keycode, e.shift))).Nodup ∧
    (∀ e1 ∈ cardkb_keymap, ∀ e2 ∈ cardkb_keymap, e1.raw_code ≠ e2.raw_code →
      (e1.keycode, e1.shift) ≠ (e2.keycode, e2.shift)) ∧
    (∀ (kb : Cardkb), ∀ e1 ∈ cardkb_keymap, ∀ e2 ∈ cardkb_keymap,
      e1.raw_code ≠ e2.raw_code →
      isSteady (cardkb_poll kb (e1.raw_code : Int)).1 (e2.raw_code : Int) = false ∧
      events (cardkb_poll (cardkb_poll kb (e1.raw_code : Int)).1 (e2.raw_code : Int)).2 =
        releaseSeq e1.keycode e1.shift ++ pressSeq e2.keycode e2.shift ∧
      (cardkb_poll (cardkb_poll kb (e1.raw_code : Int)).1 (e2.raw_code : Int)).1 =
        Held e2.keycode e2.shift) := by
  have hinj : ∀ e1 ∈ cardkb_keymap, ∀ e2 ∈ cardkb_keymap, e1.raw_code ≠ e2.raw_code →
      (e1.keycode, e1.shift) ≠ (e2.keycode, e2.shift) := by
    intro e1 he1 e2 he2 hne hp
    have := List.inj_on_of_nodup_map keymap_pair_nodup he1 he2 hp
    exact hne (by rw [this])
  refine ⟨keymap_pair_nodup, hinj, ?_⟩
  intro kb e1 he1 e2 he2 hne
  have hne2 := hinj e1 he1 e2 he2 hne
  have hk1 := (keymap_entry_facts e1 he1).2.1
  have hguard : e1.keycode ≠ 0 ∧ (e1.keycode ≠ e2.keycode ∨ e1.shift ≠ e2.shift) := by
    refine ⟨hk1, ?_⟩
    by_contra hc
    push_neg at hc
    exact hne2 (by rw [hc.1, hc.2])
  rw [state_entry kb e1 he1]
  refine ⟨?_, ?_, state_entry _ e2 he2⟩
  · rw [isSteady_entry _ e2 he2, decide_eq_false_iff_not]
    rintro ⟨_, h1, h2⟩
    rcases hguard.2 with h | h
    · exact h h1.symm
    · exact h h2.symm
  · rw [events_entry _ e2 he2]
    have hg : (Held e1.keycode e1.shift).last_keycode ≠ 0 ∧
        ((Held e1.keycode e1.shift).last_keycode ≠ e2.keycode ∨
          (Held e1.keycode e1.shift).last_shift ≠ e2.shift) := hguard
    rw [if_pos hg]
    rfl

/-- Witness for C20: `0x61` (`(KEY_A, false)`) then `0x41` (`(KEY_A, true)`),
the same key with a different shift flag. -/
theorem keymap_injective_no_swallow_witness :
    KeymapEntry.mk 0x61 KEY_A false ∈ cardkb_keymap ∧
    KeymapEntry.mk 0x41 KEY_A true ∈ cardkb_keymap ∧
    (0x61 : Nat) ≠ 0x41 ∧
    events (cardkb_poll (cardkb_poll Idle ((0x61 : Nat) : Int)).1 ((0x41 : Nat) : Int)).2 =
      releaseSeq KEY_A false ++ pressSeq KEY_A true :=
  ⟨by decide, by decide, by decide,
    (keymap_injective_no_swallow.2.2 Idle (KeymapEntry.mk 0x61 KEY_A false) (by decide)
      (KeymapEntry.mk 0x41 KEY_A true) (by decide) (by decide)).2.1⟩

end CardKB
